import Mathlib

/-!
# Browser statistics rollup (`cron/browser_stat.go`)

A shallow embedding of `updateBrowserStats` and `getBrowser`.

* A Go `string` is a sequence of bytes; it is modelled by a Lean `String`
  read as the sequence of its units.  The only separators the code looks
  for are `"."` and `" "`, single units.
* A Go `int` is a 64-bit two's-complement integer; it is modelled by an `Int`
  and every addition is wrapped by `wrapInt64`.
* The user-agent parser (`github.com/mssola/user_agent`) is an external
  package: its result is a parameter `New : String → UserAgent`.
* The storage calls (`SelectContext`, `ExecContext`, `bulk.Insert`) are
  external: their outcomes are given by a `Storage` record and the table
  `browser_stats` is a list of rows.
* The two SQL queries are translated to list operations over the rows of
  the table `hits`; a timestamp value is represented by its text
  "YYYY-MM-DD HH:MM:SS".
-/

namespace Cron

/-! ## Go strings -/

/-- Go `strings.Count(s, sep)` for a separator of one unit. -/
def stringsCount (s : String) (sep : Char) : Nat :=
  s.data.count sep

/-- Go `strings.Index(s, sep)` for a separator of one unit: the position of
its first occurrence, `-1` when there is none. -/
def stringsIndex (s : String) (sep : Char) : Int :=
  if sep ∈ s.data then (s.data.indexOf sep : Int) else -1

/-- Go slice expression `s[:i]`. -/
def slice (s : String) (i : Nat) : String :=
  ⟨s.data.take i⟩

/-- Pieces of a unit sequence between the occurrences of `sep`. -/
def splitUnits (sep : Char) : List Char → List (List Char)
  | [] => [[]]
  | c :: cs =>
    if c = sep then [] :: splitUnits sep cs
    else
      match splitUnits sep cs with
      | [] => [[c]]
      | h :: t => (c :: h) :: t

/-- Go `strings.Split(s, sep)` for a separator of one unit. -/
def stringsSplit (s : String) (sep : Char) : List String :=
  (splitUnits sep s.data).map String.mk

/-! ## The user-agent classifier -/

/-- Result of `user_agent.New(uaHeader)` as far as `getBrowser` reads it:
`Browser()` gives the pair (name, version), `Mobile()` the device flag. -/
structure UserAgent where
  Browser : String × String
  Mobile : Bool
deriving DecidableEq, Repr

/-- Source: `getBrowser` (browser_stat.go, lines 116-156). -/
def getBrowser (New : String → UserAgent) (uaHeader : String) : String × String × Bool :=
  let ua := New uaHeader
  let browser := ua.Browser.1
  let version := ua.Browser.2
  -- A lot of this is wrong, so just skip for now.
  if browser = "Android" then ("", "", false)
  else
    let browser := if browser = "Chromium" then "Chrome" else browser
    -- Correct some wrong data.
    let browser :=
      if browser = "Safari" ∧ stringsCount version '.' = 3 then "Chrome" else browser
    let version :=
      if browser = "Chrome" ∨ browser = "Opera" then
        let i := stringsIndex version '.'
        if i > -1 then slice version i.toNat else version
      else version
    -- Don't include patch version.
    let version :=
      if browser = "Safari" then
        match stringsSplit version '.' with
        | v0 :: v1 :: _ :: _ => v0 ++ "." ++ v1
        | _ => version
      else version
    let mobile := ua.Mobile
    (browser, version, mobile)

/-! ## Go integers and times -/

/-- Value of a Go `int` (64 bits, two's complement) after an arithmetic
operation whose mathematical result is `x`. -/
def wrapInt64 (x : Int) : Int :=
  (x + 2 ^ 63) % 2 ^ 64 - 2 ^ 63

/-- Go `appendInt` of package `time`: the decimal digits of `x`, padded with
zeros to `width` digits, after a `-` when `x` is negative. -/
def appendInt (x : Int) (width : Nat) : String :=
  let digits := Nat.toDigits 10 x.natAbs
  let padded := List.replicate (width - digits.length) '0' ++ digits
  (if x < 0 then "-" else "") ++ String.mk padded

/-- A Go `time.Time` read through its calendar fields in its own location. -/
structure Time where
  Year : Int
  Month : Nat
  Day : Nat
  Hour : Nat
  Minute : Nat
  Second : Nat
deriving DecidableEq, Repr

/-- Go `t.Format("2006-01-02")`. -/
def Time.FormatDay (t : Time) : String :=
  appendInt t.Year 4 ++ "-" ++ appendInt t.Month 2 ++ "-" ++ appendInt t.Day 2

/-! ## Data model -/

/-- Source: `type bstat` (lines 23-27), a fetched raw row. -/
structure bstat where
  Browser : String
  Count : Int
  CreatedAt : Time
deriving DecidableEq, Repr

/-- Source: `type gt` (lines 82-88), the value stored per group. -/
structure gt where
  count : Int
  mobile : Bool
  day : String
  browser : String
  version : String
deriving DecidableEq, Repr

/-- The zero value of `gt`, what `grouped[k]` gives for a missing key. -/
def gt.zero : gt :=
  { count := 0, mobile := false, day := "", browser := "", version := "" }

/-- A Go `map[string]gt`, kept as a list of entries with distinct keys. -/
abbrev GroupMap := List (String × gt)

/-- Go `grouped[k]` as an expression: the stored value, the zero value when
the key is missing. -/
def mapGet : GroupMap → String → gt
  | [], _ => gt.zero
  | (k', v) :: rest, k => if k' = k then v else mapGet rest k

/-- Go `grouped[k] = v`. -/
def mapSet : GroupMap → String → gt → GroupMap
  | [], k, v => [(k, v)]
  | (k', v') :: rest, k, v =>
    if k' = k then (k, v) :: rest else (k', v') :: mapSet rest k v

/-- The key string built at line 95. -/
def groupKey (day browser version : String) : String :=
  day ++ browser ++ " " ++ version

/-- Source: body of the loop at lines 90-105, for one raw row. -/
def groupStep (New : String → UserAgent) (grouped : GroupMap) (s : bstat) : GroupMap :=
  match getBrowser New s.Browser with
  | (browser, version, mobile) =>
    if browser = "" then grouped
    else
      let k := groupKey s.CreatedAt.FormatDay browser version
      let v := mapGet grouped k
      let v :=
        if v.count = 0 then
          { v with day := s.CreatedAt.FormatDay, browser := browser,
                   version := version, mobile := mobile }
        else v
      let v := { v with count := wrapInt64 (v.count + s.Count) }
      mapSet grouped k v

/-- Source: the grouping loop of `updateBrowserStats` (lines 89-105). -/
def groupStats (New : String → UserAgent) (stats : List bstat) : GroupMap :=
  stats.foldl (groupStep New) []

/-- The values of the map, what `for _, v := range grouped` visits. -/
def groups (New : String → UserAgent) (stats : List bstat) : List gt :=
  (groupStats New stats).map Prod.snd

/-! ## Storage -/

/-- A Go `error`: an error of the storage layer, or `errors.Wrap(cause, message)`. -/
inductive GoError where
  | storage (text : String)
  | wrap (cause : GoError) (message : String)
deriving DecidableEq, Repr

/-- A row of the table `browser_stats`, in the column order of the insert
(line 108). -/
structure SummaryRow where
  site : Int
  day : String
  browser : String
  version : String
  count : Int
  mobile : Bool
deriving DecidableEq, Repr

/-- Source: `goatcounter.Site`, the two fields the job reads. -/
structure Site where
  ID : Int
  LastStat : Option Time
deriving DecidableEq, Repr

/-- Order of two text values as SQL compares them: unit by unit, a proper
start of a text before the text. -/
def textLE : List Char → List Char → Bool
  | [], _ => true
  | _ :: _, [] => false
  | a :: as, b :: bs => if a = b then textLE as bs else decide (a.toNat < b.toNat)

/-- SQL `day >= $2` on the text of a day and the text of the watermark. -/
def dayGE (day last : String) : Bool :=
  textLE last.data day.data

/-- What the storage layer answers during one run: the result of the select
for a dialect, site and watermark, the error (if any) of the delete, and the
error (if any) of the bulk insert with the number of rows written before it. -/
structure Storage where
  SelectContext : Bool → Int → String → Except GoError (List bstat)
  ExecContext : Option GoError
  Finish : Option (GoError × Nat)

/-- The watermark of lines 33-39. -/
def watermark (site : Site) : String :=
  match site.LastStat with
  | none => "1970-01-01"
  | some t => t.FormatDay

/-- The row of values passed to `insBrowser.Values` at line 110. -/
def summaryRow (site : Site) (v : gt) : SummaryRow :=
  { site := site.ID, day := v.day, browser := v.browser, version := v.version,
    count := v.count, mobile := v.mobile }

/-- SQL `site=$1 and day>=$2` on a row of `browser_stats`. -/
def inWindow (siteID : Int) (last : String) (r : SummaryRow) : Bool :=
  decide (r.site = siteID) && dayGE r.day last

/-- SQL `delete from browser_stats where site=$1 and day>=$2` (line 75). -/
def deleteWindow (siteID : Int) (last : String) (table : List SummaryRow) : List SummaryRow :=
  table.filter (fun r => !inWindow siteID last r)

/-- The rows handed to the bulk insert (lines 107-111): one per entry of the
map. -/
def insertedRows (New : String → UserAgent) (site : Site) (stats : List bstat) :
    List SummaryRow :=
  (groupStats New stats).map (fun kv => summaryRow site kv.2)

/-- Source: `updateBrowserStats` (lines 29-114).  The result is the table
`browser_stats` after the run and the returned error. -/
def updateBrowserStats (New : String → UserAgent) (db : Storage) (pgsql : Bool)
    (site : Site) (table : List SummaryRow) : List SummaryRow × Option GoError :=
  let last := watermark site
  match db.SelectContext pgsql site.ID last with
  | .error err => (table, some (GoError.wrap err "fetch data"))
  | .ok stats =>
    match db.ExecContext with
    | some err => (table, some (GoError.wrap err "delete"))
    | none =>
      let table := deleteWindow site.ID last table
      let rows := insertedRows New site stats
      match db.Finish with
      | none => (table ++ rows, none)
      | some (err, written) => (table ++ rows.take written, some err)

/-! ## Auxiliary definitions used in the statements -/

/-- The version kept for Chrome and Opera (lines 141-143): the units before
the first dot. -/
def majorOf (version : String) : String :=
  let i := stringsIndex version '.'
  if i > -1 then slice version i.toNat else version

/-- The version kept for Safari (lines 148-151): the first two components
when there are more than two. -/
def minorOf (version : String) : String :=
  match stringsSplit version '.' with
  | v0 :: v1 :: _ :: _ => v0 ++ "." ++ v1
  | _ => version

/-- A parser that always answers with the given name, version and flag. -/
def constParser (browser version : String) (mobile : Bool) : String → UserAgent :=
  fun _ => { Browser := (browser, version), Mobile := mobile }

/-- Whether the loop keeps the row: its family is not empty (line 92). -/
def kept (New : String → UserAgent) (s : bstat) : Bool :=
  decide ((getBrowser New s.Browser).1 ≠ "")

/-- The (day, family, version) of a raw row: the calendar day of its
`created_at` and the family and version `getBrowser` gives its user agent. -/
def rowTriple (New : String → UserAgent) (s : bstat) : String × String × String :=
  (s.CreatedAt.FormatDay, (getBrowser New s.Browser).1, (getBrowser New s.Browser).2.1)

/-- The key string the loop computes for a raw row (line 95). -/
def rowKey (New : String → UserAgent) (s : bstat) : String :=
  groupKey s.CreatedAt.FormatDay (getBrowser New s.Browser).1 (getBrowser New s.Browser).2.1

/-- The (day, browser, version) recorded in a group. -/
def recorded (g : gt) : String × String × String :=
  (g.day, g.browser, g.version)

/-- The value the loop stores for a kept row when the key held `v`
(lines 96-103). -/
def accumulate (New : String → UserAgent) (v : gt) (s : bstat) : gt :=
  let v :=
    if v.count = 0 then
      { v with day := s.CreatedAt.FormatDay, browser := (getBrowser New s.Browser).1,
               version := (getBrowser New s.Browser).2.1,
               mobile := (getBrowser New s.Browser).2.2 }
    else v
  { v with count := wrapInt64 (v.count + s.Count) }

/-- The effect of one raw row on the value held at the key `k`. -/
def stepAt (New : String → UserAgent) (k : String) (v : gt) (s : bstat) : gt :=
  if kept New s = true ∧ rowKey New s = k then accumulate New v s else v

/-- The kept raw rows whose (day, family, version) is `t`. -/
def rowsOf (New : String → UserAgent) (stats : List bstat)
    (t : String × String × String) : List bstat :=
  stats.filter (fun s => kept New s && decide (rowTriple New s = t))

/-- The kept raw rows whose key string is `k`. -/
def rowsAt (New : String → UserAgent) (stats : List bstat) (k : String) : List bstat :=
  stats.filter (fun s => kept New s && decide (rowKey New s = k))

/-- The sum of the counts of raw rows, as a mathematical integer. -/
def sumCounts (l : List bstat) : Int :=
  (l.map bstat.Count).sum

/-- No two kept raw rows with different (day, family, version) have the same
key string. -/
def NoKeyClash (New : String → UserAgent) (stats : List bstat) : Prop :=
  ∀ s1 ∈ stats, ∀ s2 ∈ stats, kept New s1 = true → kept New s2 = true →
    rowKey New s1 = rowKey New s2 → rowTriple New s1 = rowTriple New s2

instance (New : String → UserAgent) (stats : List bstat) : Decidable (NoKeyClash New stats) := by
  unfold NoKeyClash
  infer_instance

/-- The bounds of a Go `int`. -/
def inInt64 (x : Int) : Prop :=
  -(2 ^ 63) ≤ x ∧ x < 2 ^ 63

instance (x : Int) : Decidable (inInt64 x) := by
  unfold inInt64
  infer_instance

/-- The group `v` holds what was recorded from a kept row of `L` with key `k`. -/
def RecordedFrom (New : String → UserAgent) (L : List bstat) (k : String) (v : gt) : Prop :=
  ∃ s0 ∈ L, kept New s0 = true ∧ rowKey New s0 = k ∧ recorded v = rowTriple New s0 ∧
    v.mobile = (getBrowser New s0.Browser).2.2

/-! ## Sample inputs -/

/-- A parser that reports Chrome 96.0.4664.110 for every user agent. -/
def chromeParser : String → UserAgent :=
  constParser "Chrome" "96.0.4664.110" false

/-- The time 2020-01-05, 10:00. -/
def day1hour1 : Time :=
  { Year := 2020, Month := 1, Day := 5, Hour := 10, Minute := 0, Second := 0 }

/-- The time 2020-01-05, 11:00. -/
def day1hour2 : Time :=
  { Year := 2020, Month := 1, Day := 5, Hour := 11, Minute := 0, Second := 0 }

/-- Two raw rows of one user agent in two hours of the same day. -/
def sameDayRows : List bstat :=
  [{ Browser := "UA_A", Count := 3, CreatedAt := day1hour1 },
   { Browser := "UA_A", Count := 2, CreatedAt := day1hour2 }]

/-- A parser whose answers for two user agents differ in family and version
but agree once family, a space and version are written one after the other. -/
def clashParser : String → UserAgent := fun uaHeader =>
  if uaHeader = "UA_1" then { Browser := ("My Bot", "1.0"), Mobile := false }
  else { Browser := ("My", "Bot 1.0"), Mobile := false }

/-- Two raw rows of the same hour whose user agents `clashParser` separates. -/
def clashRows : List bstat :=
  [{ Browser := "UA_1", Count := 3, CreatedAt := day1hour1 },
   { Browser := "UA_2", Count := 2, CreatedAt := day1hour1 }]

/-- A parser that reports Android for "UA_droid" and Chrome otherwise. -/
def androidParser : String → UserAgent := fun uaHeader =>
  if uaHeader = "UA_droid" then { Browser := ("Android", "4.0.4"), Mobile := true }
  else { Browser := ("Chrome", "96.0.4664.110"), Mobile := false }

/-- An Android row between two Chrome rows of the same day. -/
def androidRows : List bstat :=
  [{ Browser := "UA_A", Count := 3, CreatedAt := day1hour1 },
   { Browser := "UA_droid", Count := 7, CreatedAt := day1hour1 },
   { Browser := "UA_A", Count := 2, CreatedAt := day1hour2 }]

/-- A checkpoint in the afternoon of 2020-01-05. -/
def lastStat : Time :=
  { Year := 2020, Month := 1, Day := 5, Hour := 14, Minute := 30, Second := 0 }

/-- The tenant 1 with `last_stat` = 2020-01-05. -/
def site5 : Site :=
  { ID := 1, LastStat := some lastStat }

/-- A storage layer whose select returns `stats` and whose delete and insert
succeed. -/
def okStorage (stats : List bstat) : Storage :=
  { SelectContext := fun _ _ _ => Except.ok stats, ExecContext := none, Finish := none }

/-- A summary row of tenant 1 of the day before the watermark. -/
def earlierRow : SummaryRow :=
  { site := 1, day := "2020-01-04", browser := "Firefox", version := "70", count := 9,
    mobile := false }

/-- A summary row of tenant 2 of a day after the watermark. -/
def otherTenantRow : SummaryRow :=
  { site := 2, day := "2020-01-06", browser := "Chrome", version := "96", count := 4,
    mobile := false }

/-- A summary table before the run: a row of tenant 1 before the watermark, a
row of tenant 2, and a row of tenant 1 in the window that no raw row of the
run supports. -/
def priorTable : List SummaryRow :=
  [earlierRow, otherTenantRow,
   { site := 1, day := "2020-01-05", browser := "Firefox", version := "70", count := 8,
     mobile := false }]

/-- The summary table after the run of tenant 1 over `sameDayRows`. -/
def afterTable : List SummaryRow :=
  [earlierRow, otherTenantRow,
   { site := 1, day := "2020-01-05", browser := "Chrome", version := "96", count := 5,
     mobile := false }]

/-- A storage layer whose select fails. -/
def readFailStorage : Storage :=
  { SelectContext := fun _ _ _ => Except.error (GoError.storage "connection lost"),
    ExecContext := none, Finish := none }

/-- A storage layer whose select succeeds and whose delete fails. -/
def deleteFailStorage : Storage :=
  { SelectContext := fun _ _ _ => Except.ok sameDayRows,
    ExecContext := some (GoError.storage "table locked"), Finish := none }

/-- A storage layer whose select and delete succeed and whose bulk insert
fails before any row is written. -/
def writeFailStorage : Storage :=
  { SelectContext := fun _ _ _ => Except.ok sameDayRows,
    ExecContext := none, Finish := some (GoError.storage "disk full", 0) }

/-- Whether a text is made of decimal digits only. -/
def allDigits (l : List Char) : Prop :=
  ∀ c ∈ l, c.isDigit = true

/-- The pairs (key string, count) of the entries of the map. -/
def keyCounts (m : GroupMap) : List (String × Int) :=
  m.map (fun kv => (kv.1, kv.2.count))

/-- The pairs (recorded (day, browser, version), count) of the groups. -/
def tripleCounts (l : List gt) : List ((String × String × String) × Int) :=
  l.map (fun g => (recorded g, g.count))

/-- The sum of the counts of the groups, as a mathematical integer. -/
def sumGroups (l : List gt) : Int :=
  (l.map gt.count).sum

/-- A parser that reports Chrome 96.0.4664.110 for every user agent, on a
mobile device for "UA_phone" only. -/
def phoneParser : String → UserAgent := fun uaHeader =>
  { Browser := ("Chrome", "96.0.4664.110"), Mobile := decide (uaHeader = "UA_phone") }

/-- A desktop row with the count 3 before a phone row of the same group. -/
def deskFirstRows : List bstat :=
  [{ Browser := "UA_desk", Count := 3, CreatedAt := day1hour1 },
   { Browser := "UA_phone", Count := 5, CreatedAt := day1hour2 }]

/-! ## The two queries -/

/-- A row of the table `hits`, the columns the queries read. -/
structure Hit where
  site : Int
  browser : String
  created_at : Time
deriving DecidableEq, Repr

/-- A result row of the queries; the timestamp column `created_at` is kept
as its text "YYYY-MM-DD HH:MM:SS". -/
structure QueryRow where
  browser : String
  count : Int
  created_at : String
deriving DecidableEq, Repr

/-- SQL `cast(created_at as varchar)`: the text "YYYY-MM-DD HH:MM:SS" of a
timestamp. -/
def Time.Text (t : Time) : String :=
  t.FormatDay ++ " " ++ appendInt t.Hour 2 ++ ":" ++ appendInt t.Minute 2 ++ ":" ++
    appendInt t.Second 2

/-- PostgreSQL `substr(s, 0, n)`: positions count from 1, so the `n`
positions starting at 0 cover the first `n - 1` characters. -/
def substrFromZero (s : String) (n : Nat) : String :=
  ⟨s.data.take (n - 1)⟩

/-- SQLite `strftime('%Y-%m-%d %H', t)`. -/
def strftimeHour (t : Time) : String :=
  t.FormatDay ++ " " ++ appendInt t.Hour 2

/-- SQL `where site=$1 and created_at>=$2`, the same in both queries. -/
def hitSelected (siteID : Int) (last : String) (h : Hit) : Bool :=
  decide (h.site = siteID) && textLE last.data h.created_at.Text.data

/-- SQL `group by`: for each distinct value of the grouping expressions, the
rows that have it. -/
def groupRows (key : Hit → String × String) (hits : List Hit) : List (List Hit) :=
  ((hits.map key).dedup).map (fun k => hits.filter (fun h => decide (key h = k)))

/-- SQL `order by count desc`. -/
def orderByCountDesc (rows : List QueryRow) : List QueryRow :=
  rows.insertionSort (fun a b => b.count ≤ a.count)

/-- The result row of the PostgreSQL query for one group: `browser`,
`count(browser)` and the text of the hour followed by ":00:00", cast to a
timestamp. -/
def pgRow (g : List Hit) : Option QueryRow :=
  match g with
  | [] => none
  | h :: _ =>
    some { browser := h.browser, count := g.length,
           created_at := substrFromZero h.created_at.Text 14 ++ ":00:00" }

/-- The result row of the SQLite query for one group: `count(browser)`, and
`browser` and `created_at` of one row of the group, the row number
`pick g` (SQLite evaluates a bare column on an arbitrary row of the group). -/
def sqliteRow (pick : List Hit → Nat) (g : List Hit) : Option QueryRow :=
  match g with
  | [] => none
  | h :: _ =>
    some { browser := (g.getD (pick g % g.length) h).browser, count := g.length,
           created_at := (g.getD (pick g % g.length) h).created_at.Text }

/-- Source: the PostgreSQL query of lines 43-53. -/
def queryPgSQL (hits : List Hit) (siteID : Int) (last : String) : List QueryRow :=
  orderByCountDesc
    ((groupRows (fun h => (h.browser, substrFromZero h.created_at.Text 14))
      (hits.filter (hitSelected siteID last))).filterMap pgRow)

/-- Source: the SQLite query of lines 55-65. -/
def querySQLite (pick : List Hit → Nat) (hits : List Hit) (siteID : Int) (last : String) :
    List QueryRow :=
  orderByCountDesc
    ((groupRows (fun h => (h.browser, strftimeHour h.created_at))
      (hits.filter (hitSelected siteID last))).filterMap (sqliteRow pick))

/-- A result row with its timestamp cut to the hour bucket "YYYY-MM-DD HH". -/
def hourBucketRow (r : QueryRow) : String × Int × String :=
  (r.browser, r.count, (substrFromZero r.created_at 14))

/-- A timestamp of the years 0000 to 9999 with fields in the calendar's
ranges. -/
def Time.plain (t : Time) : Prop :=
  0 ≤ t.Year ∧ t.Year ≤ 9999 ∧ t.Month ≤ 12 ∧ t.Day ≤ 31 ∧ t.Hour ≤ 23 ∧ t.Minute ≤ 59 ∧
    t.Second ≤ 59

instance (t : Time) : Decidable t.plain := by
  unfold Time.plain
  infer_instance

/-- The time 2020-01-05, 10:37. -/
def day1minute37 : Time :=
  { Year := 2020, Month := 1, Day := 5, Hour := 10, Minute := 37, Second := 0 }

/-- One hit of tenant 1 at 10:37. -/
def oneHit : List Hit :=
  [{ site := 1, browser := "UA_A", created_at := day1minute37 }]

/-- Three hits of tenant 1: two in the hour from 10:00, one at 11:00. -/
def threeHits : List Hit :=
  [{ site := 1, browser := "UA_A", created_at := day1minute37 },
   { site := 1, browser := "UA_A", created_at := day1hour1 },
   { site := 1, browser := "UA_A", created_at := day1hour2 }]

/-- The raw rows the loop can receive, the result rows of the query of lines
41-66: `count(browser)` of a bucket is at least 1, and the counts add up to
the number of selected hits, which a Go `int` holds. -/
def Receivable (stats : List bstat) : Prop :=
  (∀ s ∈ stats, 1 ≤ s.Count) ∧ sumCounts stats < 2 ^ 63

instance (stats : List bstat) : Decidable (Receivable stats) := by
  unfold Receivable
  infer_instance

/-! ## Lemmas on Go strings -/

theorem splitUnits_ne_nil (sep : Char) (l : List Char) : splitUnits sep l ≠ [] := by
  cases l with
  | nil => simp [splitUnits]
  | cons c cs =>
    simp only [splitUnits]
    split_ifs
    · simp
    · split <;> simp

theorem splitUnits_length (sep : Char) (l : List Char) :
    (splitUnits sep l).length = l.count sep + 1 := by
  induction l with
  | nil => simp [splitUnits]
  | cons c cs ih =>
    simp only [splitUnits]
    by_cases h : c = sep
    · subst h
      simp [ih]
    · rw [if_neg h, List.count_cons_of_ne (Ne.symm h)]
      cases hs : splitUnits sep cs with
      | nil => exact absurd hs (splitUnits_ne_nil sep cs)
      | cons a t => rw [hs] at ih; simpa using ih

theorem splitUnits_no_sep (sep : Char) (l : List Char) :
    ∀ p ∈ splitUnits sep l, sep ∉ p := by
  induction l with
  | nil => simp [splitUnits]
  | cons c cs ih =>
    simp only [splitUnits]
    by_cases h : c = sep
    · rw [if_pos h]
      intro p hp
      rcases List.mem_cons.1 hp with rfl | hp
      · simp
      · exact ih p hp
    · rw [if_neg h]
      cases hs : splitUnits sep cs with
      | nil => exact absurd hs (splitUnits_ne_nil sep cs)
      | cons a t =>
        rw [hs] at ih
        intro p hp
        rcases List.mem_cons.1 hp with rfl | hp
        · intro hmem
          rcases List.mem_cons.1 hmem with e | e
          · exact h e.symm
          · exact ih a (List.mem_cons_self _ _) e
        · exact ih p (List.mem_cons_of_mem _ hp)

theorem splitUnits_append_sep (sep : Char) (a rest : List Char) (ha : sep ∉ a) :
    splitUnits sep (a ++ sep :: rest) = a :: splitUnits sep rest := by
  induction a with
  | nil => simp [splitUnits]
  | cons c cs ih =>
    have hc : c ≠ sep := fun e => ha (by simp [e])
    have hcs : sep ∉ cs := fun e => ha (List.mem_cons_of_mem _ e)
    rw [List.cons_append, splitUnits, if_neg hc, ih hcs]

theorem splitUnits_of_not_mem (sep : Char) (a : List Char) (ha : sep ∉ a) :
    splitUnits sep a = [a] := by
  induction a with
  | nil => simp [splitUnits]
  | cons c cs ih =>
    have hc : c ≠ sep := fun e => ha (by simp [e])
    have hcs : sep ∉ cs := fun e => ha (List.mem_cons_of_mem _ e)
    simp only [splitUnits, if_neg hc, ih hcs]

theorem splitUnits_head (sep : Char) (l : List Char) :
    (splitUnits sep l).head? = some (l.takeWhile (fun c => c != sep)) := by
  induction l with
  | nil => simp [splitUnits]
  | cons c cs ih =>
    simp only [splitUnits]
    by_cases h : c = sep
    · subst h
      simp
    · rw [if_neg h]
      cases hs : splitUnits sep cs with
      | nil => exact absurd hs (splitUnits_ne_nil sep cs)
      | cons a t =>
        rw [hs] at ih
        simp only [List.head?_cons, Option.some.injEq] at ih
        simp [List.takeWhile_cons, h, ih]

theorem take_indexOf_eq_takeWhile (sep : Char) (l : List Char) :
    l.take (l.indexOf sep) = l.takeWhile (fun c => c != sep) := by
  induction l with
  | nil => simp
  | cons c cs ih =>
    by_cases h : c = sep
    · subst h
      simp
    · rw [List.indexOf_cons_ne _ h]
      simp [List.takeWhile_cons, h, ih]

theorem takeWhile_no_sep (sep : Char) (l : List Char) :
    sep ∉ l.takeWhile (fun c => c != sep) := by
  intro h
  have := List.mem_takeWhile_imp h
  simp at this

theorem takeWhile_append_sep (sep : Char) (a rest : List Char) (ha : sep ∉ a) :
    (a ++ sep :: rest).takeWhile (fun c => c != sep) = a := by
  induction a with
  | nil => simp
  | cons c cs ih =>
    have hc : c ≠ sep := fun e => ha (by simp [e])
    have hcs : sep ∉ cs := fun e => ha (List.mem_cons_of_mem _ e)
    simp [List.takeWhile_cons, hc, ih hcs]

theorem takeWhile_of_not_mem (sep : Char) (a : List Char) (ha : sep ∉ a) :
    a.takeWhile (fun c => c != sep) = a := by
  induction a with
  | nil => simp
  | cons c cs ih =>
    have hc : c ≠ sep := fun e => ha (by simp [e])
    have hcs : sep ∉ cs := fun e => ha (List.mem_cons_of_mem _ e)
    simp [List.takeWhile_cons, hc, ih hcs]

theorem majorOf_data (version : String) :
    (majorOf version).data = version.data.takeWhile (fun c => c != '.') := by
  unfold majorOf stringsIndex slice
  by_cases h : '.' ∈ version.data
  · have h0 : ((List.indexOf '.' version.data : Nat) : Int) > -1 := by omega
    simp only [if_pos h, h0, if_true, Int.toNat_ofNat]
    exact take_indexOf_eq_takeWhile '.' version.data
  · simp only [if_neg h]
    simp [takeWhile_of_not_mem '.' version.data h]

/-- The decision table of `getBrowser`. -/
theorem getBrowser_table (New : String → UserAgent) (uaHeader : String) :
    getBrowser New uaHeader =
      if (New uaHeader).Browser.1 = "Android" then ("", "", false)
      else if (New uaHeader).Browser.1 = "Chromium" ∨ (New uaHeader).Browser.1 = "Chrome" ∨
          ((New uaHeader).Browser.1 = "Safari" ∧ stringsCount (New uaHeader).Browser.2 '.' = 3) then
        ("Chrome", majorOf (New uaHeader).Browser.2, (New uaHeader).Mobile)
      else if (New uaHeader).Browser.1 = "Opera" then
        ("Opera", majorOf (New uaHeader).Browser.2, (New uaHeader).Mobile)
      else if (New uaHeader).Browser.1 = "Safari" then
        ("Safari", minorOf (New uaHeader).Browser.2, (New uaHeader).Mobile)
      else ((New uaHeader).Browser.1, (New uaHeader).Browser.2, (New uaHeader).Mobile) := by
  simp only [getBrowser, majorOf, minorOf]
  generalize (New uaHeader).Browser.1 = b
  generalize (New uaHeader).Browser.2 = v
  by_cases h1 : b = "Android"
  · simp [h1]
  by_cases h2 : b = "Chromium"
  · simp [h2]
  by_cases h3 : b = "Chrome"
  · simp [h3]
  by_cases h4 : b = "Opera"
  · simp [h4]
  by_cases h5 : b = "Safari"
  · by_cases h6 : stringsCount v '.' = 3
    · simp [h5, h6]
    · simp [h5, h6]
  · simp [h1, h2, h3, h4, h5]

/-! ## The classifier: version truncation -/

theorem majorOf_count (version : String) : stringsCount (majorOf version) '.' = 0 := by
  unfold stringsCount
  rw [majorOf_data]
  exact List.count_eq_zero.2 (takeWhile_no_sep '.' version.data)

theorem majorOf_of_prefix (pre post : String) (h : stringsCount pre '.' = 0) :
    majorOf (pre ++ "." ++ post) = pre := by
  have hp : '.' ∉ pre.data := List.count_eq_zero.1 h
  apply String.ext
  rw [majorOf_data]
  have e : (pre ++ "." ++ post).data = pre.data ++ '.' :: post.data := by
    simp [String.data_append]
  rw [e]
  exact takeWhile_append_sep '.' pre.data post.data hp

theorem majorOf_of_no_dot (version : String) (h : stringsCount version '.' = 0) :
    majorOf version = version := by
  have hp : '.' ∉ version.data := List.count_eq_zero.1 h
  apply String.ext
  rw [majorOf_data]
  exact takeWhile_of_not_mem '.' version.data hp

theorem majorOf_head (version : String) :
    (stringsSplit version '.').head? = some (majorOf version) := by
  unfold stringsSplit
  rw [List.head?_map, splitUnits_head]
  simp only [Option.map_some']
  congr 1
  apply String.ext
  rw [majorOf_data]

theorem stringsSplit_length (s : String) :
    (stringsSplit s '.').length = stringsCount s '.' + 1 := by
  unfold stringsSplit stringsCount
  rw [List.length_map, splitUnits_length]

/-- C8: when the parser reports Chrome, Opera or Chromium, `getBrowser`
returns the family Chrome (for Chrome and Chromium) or Opera, and a version
without a dot that is the parsed version cut before its first dot: it is the
part `pre` of any writing `pre ++ "." ++ post` of the parsed version in which
`pre` has no dot, and the whole parsed version when that has no dot. -/
theorem getBrowser_chrome_opera_major (New : String → UserAgent) (uaHeader : String)
    (h : (New uaHeader).Browser.1 = "Chrome" ∨ (New uaHeader).Browser.1 = "Opera" ∨
      (New uaHeader).Browser.1 = "Chromium") :
    (getBrowser New uaHeader).1 =
        (if (New uaHeader).Browser.1 = "Opera" then "Opera" else "Chrome") ∧
      stringsCount (getBrowser New uaHeader).2.1 '.' = 0 ∧
      (∀ pre post : String, (New uaHeader).Browser.2 = pre ++ "." ++ post →
        stringsCount pre '.' = 0 → (getBrowser New uaHeader).2.1 = pre) ∧
      (stringsCount (New uaHeader).Browser.2 '.' = 0 →
        (getBrowser New uaHeader).2.1 = (New uaHeader).Browser.2) ∧
      (getBrowser New uaHeader).2.2 = (New uaHeader).Mobile := by
  have hv : getBrowser New uaHeader =
      ((if (New uaHeader).Browser.1 = "Opera" then "Opera" else "Chrome"),
        majorOf (New uaHeader).Browser.2, (New uaHeader).Mobile) := by
    rw [getBrowser_table]
    rcases h with h | h | h <;> simp [h]
  rw [hv]
  refine ⟨rfl, majorOf_count _, ?_, majorOf_of_no_dot _, rfl⟩
  intro pre post e hpre
  show majorOf (New uaHeader).Browser.2 = pre
  rw [e]
  exact majorOf_of_prefix pre post hpre

/-- C8, at the spec's example: Chrome "96.0.4664.110" gives Chrome "96". -/
theorem getBrowser_chrome_opera_major_witness :
    ((constParser "Chrome" "96.0.4664.110" false "UA_A").Browser.1 = "Chrome" ∨
      (constParser "Chrome" "96.0.4664.110" false "UA_A").Browser.1 = "Opera" ∨
      (constParser "Chrome" "96.0.4664.110" false "UA_A").Browser.1 = "Chromium") ∧
    (getBrowser (constParser "Chrome" "96.0.4664.110" false) "UA_A").1 = "Chrome" ∧
    (getBrowser (constParser "Chrome" "96.0.4664.110" false) "UA_A").2.1 = "96" :=
  ⟨Or.inl rfl,
    (getBrowser_chrome_opera_major (constParser "Chrome" "96.0.4664.110" false) "UA_A"
      (Or.inl rfl)).1,
    (getBrowser_chrome_opera_major (constParser "Chrome" "96.0.4664.110" false) "UA_A"
      (Or.inl rfl)).2.2.1 "96" "0.4664.110" (by decide) (by decide)⟩

/-- C9: when the parser reports Safari with a version of exactly 3 dots (4
components), `getBrowser` returns the family Chrome and the first component
of the parsed version; when it reports Safari with any other number of dots,
the returned family is Safari. -/
theorem getBrowser_safari_reclassified (New : String → UserAgent) (uaHeader : String)
    (h : (New uaHeader).Browser.1 = "Safari") :
    (stringsCount (New uaHeader).Browser.2 '.' = 3 →
      (stringsSplit (New uaHeader).Browser.2 '.').length = 4 ∧
      (getBrowser New uaHeader).1 = "Chrome" ∧
      (stringsSplit (New uaHeader).Browser.2 '.').head? = some (getBrowser New uaHeader).2.1) ∧
    (stringsCount (New uaHeader).Browser.2 '.' ≠ 3 →
      (getBrowser New uaHeader).1 = "Safari") := by
  constructor
  · intro h3
    have hv : getBrowser New uaHeader =
        ("Chrome", majorOf (New uaHeader).Browser.2, (New uaHeader).Mobile) := by
      rw [getBrowser_table]
      simp [h, h3]
    rw [hv]
    exact ⟨by rw [stringsSplit_length, h3], rfl, majorOf_head _⟩
  · intro h3
    rw [getBrowser_table]
    simp [h, h3]

/-- C9, at a Safari version with four components and at one with three. -/
theorem getBrowser_safari_reclassified_witness :
    (getBrowser (constParser "Safari" "14.1.2.3" true) "UA_S").1 = "Chrome" ∧
    (getBrowser (constParser "Safari" "14.1.2.3" true) "UA_S").2.1 = "14" ∧
    (getBrowser (constParser "Safari" "14.1.2" true) "UA_S").1 = "Safari" :=
  ⟨((getBrowser_safari_reclassified (constParser "Safari" "14.1.2.3" true) "UA_S" rfl).1
      (by decide)).2.1,
    by decide,
    (getBrowser_safari_reclassified (constParser "Safari" "14.1.2" true) "UA_S" rfl).2
      (by decide)⟩

theorem getBrowser_family_safari (New : String → UserAgent) (uaHeader : String)
    (h : (getBrowser New uaHeader).1 = "Safari") :
    getBrowser New uaHeader =
      ("Safari", minorOf (New uaHeader).Browser.2, (New uaHeader).Mobile) := by
  rw [getBrowser_table] at h ⊢
  split_ifs at h ⊢ with h1 h2 h3 h4
  · exact absurd h (by decide)
  · exact absurd (show "Chrome" = "Safari" from h) (by decide)
  · exact absurd (show "Opera" = "Safari" from h) (by decide)
  · rfl
  · exact absurd h h4

theorem minorOf_cases (version : String) :
    (stringsSplit (minorOf version) '.').length ≤ 2 ∧
    (2 < (stringsSplit version '.').length →
      ∃ v0 v1 rest, stringsSplit version '.' = v0 :: v1 :: rest ∧
        minorOf version = v0 ++ "." ++ v1) ∧
    ((stringsSplit version '.').length ≤ 2 → minorOf version = version) := by
  have hno := splitUnits_no_sep '.' version.data
  unfold minorOf
  unfold stringsSplit at *
  cases hs : splitUnits '.' version.data with
  | nil => exact absurd hs (splitUnits_ne_nil _ _)
  | cons a t =>
    cases t with
    | nil => simp [hs]
    | cons b t =>
      cases t with
      | nil => simp [hs]
      | cons c t =>
        rw [hs] at hno
        have ha : '.' ∉ a := hno a (by simp)
        have hb : '.' ∉ b := hno b (by simp)
        have e : (String.mk a ++ "." ++ String.mk b).data = a ++ '.' :: b := by
          simp [String.data_append]
        refine ⟨?_, ?_, ?_⟩
        · simp only [List.map_cons, e]
          rw [splitUnits_append_sep '.' a b ha, splitUnits_of_not_mem '.' b hb]
          simp
        · intro _
          exact ⟨String.mk a, String.mk b, (c :: t).map String.mk, by simp, by simp⟩
        · intro hl
          simp at hl

/-- C10: whenever `getBrowser` returns the family Safari, the returned
version has at most two dot-separated components: it is the first two
components of the parsed version joined by a dot when the parsed version has
more than two components, and the parsed version unchanged otherwise. -/
theorem getBrowser_safari_minor (New : String → UserAgent) (uaHeader : String)
    (h : (getBrowser New uaHeader).1 = "Safari") :
    (stringsSplit (getBrowser New uaHeader).2.1 '.').length ≤ 2 ∧
    (2 < (stringsSplit (New uaHeader).Browser.2 '.').length →
      ∃ v0 v1 rest, stringsSplit (New uaHeader).Browser.2 '.' = v0 :: v1 :: rest ∧
        (getBrowser New uaHeader).2.1 = v0 ++ "." ++ v1) ∧
    ((stringsSplit (New uaHeader).Browser.2 '.').length ≤ 2 →
      (getBrowser New uaHeader).2.1 = (New uaHeader).Browser.2) := by
  rw [getBrowser_family_safari New uaHeader h]
  exact minorOf_cases (New uaHeader).Browser.2

/-- C10, at the spec's example: Safari "14.1.2" gives Safari "14.1". -/
theorem getBrowser_safari_minor_witness :
    (getBrowser (constParser "Safari" "14.1.2" false) "UA_S").1 = "Safari" ∧
    (getBrowser (constParser "Safari" "14.1.2" false) "UA_S").2.1 = "14.1" ∧
    (stringsSplit (getBrowser (constParser "Safari" "14.1.2" false) "UA_S").2.1 '.').length ≤ 2 :=
  ⟨by decide, by decide,
    (getBrowser_safari_minor (constParser "Safari" "14.1.2" false) "UA_S" (by decide)).1⟩

/-! ## The map -/

theorem mapGet_mapSet (m : GroupMap) (k k' : String) (v : gt) :
    mapGet (mapSet m k v) k' = if k = k' then v else mapGet m k' := by
  induction m with
  | nil => simp [mapSet, mapGet]
  | cons e rest ih =>
    obtain ⟨a, b⟩ := e
    by_cases h : a = k
    · subst h
      by_cases h' : a = k' <;> simp [mapSet, mapGet, h']
    · by_cases h' : k = k'
      · subst h'
        simp [mapSet, mapGet, h, ih]
      · by_cases h2 : a = k'
        · subst h2
          simp [mapSet, mapGet, h, h']
        · simp [mapSet, mapGet, h, h', h2, ih]

theorem mapSet_keys (m : GroupMap) (k : String) (v : gt) :
    (mapSet m k v).map Prod.fst =
      if k ∈ m.map Prod.fst then m.map Prod.fst else m.map Prod.fst ++ [k] := by
  induction m with
  | nil => simp [mapSet]
  | cons e rest ih =>
    obtain ⟨a, b⟩ := e
    by_cases h : a = k
    · subst h
      simp [mapSet]
    · have h' : k ≠ a := fun e => h e.symm
      by_cases hm : k ∈ rest.map Prod.fst
      · simp only [mapSet, if_neg h, List.map_cons, ih, if_pos hm, List.mem_cons, h', false_or]
      · simp only [mapSet, if_neg h, List.map_cons, ih, if_neg hm, List.mem_cons, h', false_or,
          List.cons_append]

theorem mapSet_nodup (m : GroupMap) (k : String) (v : gt) (h : (m.map Prod.fst).Nodup) :
    ((mapSet m k v).map Prod.fst).Nodup := by
  rw [mapSet_keys]
  split_ifs with hk
  · exact h
  · exact List.Nodup.append h (List.nodup_singleton k) (by simpa using hk)

theorem mapGet_of_mem (m : GroupMap) (k : String) (g : gt) (h : (m.map Prod.fst).Nodup)
    (hm : (k, g) ∈ m) : mapGet m k = g := by
  induction m with
  | nil => simp at hm
  | cons e rest ih =>
    obtain ⟨a, b⟩ := e
    simp only [List.map_cons, List.nodup_cons] at h
    rcases List.mem_cons.1 hm with e | hm
    · cases e
      simp [mapGet]
    · have hne : a ≠ k := by
        intro e
        subst e
        exact h.1 (List.mem_map_of_mem Prod.fst hm)
      simp only [mapGet, if_neg hne]
      exact ih h.2 hm

theorem mem_of_key_mem (m : GroupMap) (k : String) (h : k ∈ m.map Prod.fst) :
    (k, mapGet m k) ∈ m := by
  induction m with
  | nil => simp at h
  | cons e rest ih =>
    obtain ⟨a, b⟩ := e
    by_cases hk : a = k
    · subst hk
      simp [mapGet]
    · simp only [List.map_cons, List.mem_cons] at h
      rcases h with h | h
      · exact absurd h.symm hk
      · simp only [mapGet, if_neg hk]
        exact List.mem_cons_of_mem _ (ih h)

/-! ## The grouping loop, key by key -/

theorem groupStep_eq (New : String → UserAgent) (m : GroupMap) (s : bstat) :
    groupStep New m s =
      if kept New s = true then
        mapSet m (rowKey New s) (accumulate New (mapGet m (rowKey New s)) s)
      else m := by
  unfold groupStep kept rowKey accumulate
  by_cases h : (getBrowser New s.Browser).1 = "" <;> simp [h]

theorem mapGet_groupStep (New : String → UserAgent) (m : GroupMap) (s : bstat) (k : String) :
    mapGet (groupStep New m s) k = stepAt New k (mapGet m k) s := by
  rw [groupStep_eq]
  unfold stepAt
  by_cases hk : kept New s = true
  · rw [if_pos hk, mapGet_mapSet]
    by_cases he : rowKey New s = k
    · subst he
      simp [hk]
    · simp [hk, he]
  · simp [hk]

theorem mapGet_foldl (New : String → UserAgent) (stats : List bstat) (m : GroupMap) (k : String) :
    mapGet (stats.foldl (groupStep New) m) k = stats.foldl (stepAt New k) (mapGet m k) := by
  induction stats generalizing m with
  | nil => rfl
  | cons s rest ih => simp only [List.foldl_cons, ih, mapGet_groupStep]

theorem groupStep_keys (New : String → UserAgent) (m : GroupMap) (s : bstat) (k : String) :
    k ∈ (groupStep New m s).map Prod.fst ↔
      k ∈ m.map Prod.fst ∨ (kept New s = true ∧ rowKey New s = k) := by
  rw [groupStep_eq]
  by_cases hk : kept New s = true
  · rw [if_pos hk, mapSet_keys]
    split_ifs with hm
    · constructor
      · intro h
        exact Or.inl h
      · rintro (h | ⟨_, rfl⟩)
        · exact h
        · exact hm
    · simp only [List.mem_append, List.mem_singleton, hk, true_and]
      constructor
      · rintro (h | h)
        · exact Or.inl h
        · exact Or.inr h.symm
      · rintro (h | h)
        · exact Or.inl h
        · exact Or.inr h.symm
  · simp [hk]

theorem foldl_keys (New : String → UserAgent) (stats : List bstat) (m : GroupMap) (k : String) :
    k ∈ (stats.foldl (groupStep New) m).map Prod.fst ↔
      k ∈ m.map Prod.fst ∨ ∃ s ∈ stats, kept New s = true ∧ rowKey New s = k := by
  induction stats generalizing m with
  | nil => simp
  | cons s rest ih =>
    simp only [List.foldl_cons, ih, groupStep_keys, List.mem_cons, exists_eq_or_imp]
    tauto

theorem foldl_nodup (New : String → UserAgent) (stats : List bstat) (m : GroupMap)
    (h : (m.map Prod.fst).Nodup) :
    ((stats.foldl (groupStep New) m).map Prod.fst).Nodup := by
  induction stats generalizing m with
  | nil => exact h
  | cons s rest ih =>
    simp only [List.foldl_cons]
    apply ih
    rw [groupStep_eq]
    split_ifs
    · exact mapSet_nodup _ _ _ h
    · exact h

theorem groupStats_nodup (New : String → UserAgent) (stats : List bstat) :
    ((groupStats New stats).map Prod.fst).Nodup :=
  foldl_nodup New stats [] (by simp)

theorem groupStats_keys (New : String → UserAgent) (stats : List bstat) (k : String) :
    k ∈ (groupStats New stats).map Prod.fst ↔
      ∃ s ∈ stats, kept New s = true ∧ rowKey New s = k := by
  unfold groupStats
  rw [foldl_keys]
  simp

theorem groupStats_get (New : String → UserAgent) (stats : List bstat) (k : String) :
    mapGet (groupStats New stats) k = stats.foldl (stepAt New k) gt.zero := by
  unfold groupStats
  rw [mapGet_foldl]
  rfl

/-! ## Go integer arithmetic -/

theorem wrapInt64_zero : wrapInt64 0 = 0 := by decide

theorem wrapInt64_add_wrap (a b : Int) : wrapInt64 (wrapInt64 a + b) = wrapInt64 (a + b) := by
  unfold wrapInt64
  omega

theorem wrapInt64_idem (a : Int) : wrapInt64 (wrapInt64 a) = wrapInt64 a := by
  unfold wrapInt64
  omega

theorem wrapInt64_of_inInt64 (a : Int) (h : inInt64 a) : wrapInt64 a = a := by
  unfold inInt64 at h
  unfold wrapInt64
  omega

theorem inInt64_wrapInt64 (a : Int) : inInt64 (wrapInt64 a) := by
  unfold inInt64 wrapInt64
  omega

/-! ## What one key accumulates -/

theorem sumCounts_cons (s : bstat) (l : List bstat) :
    sumCounts (s :: l) = s.Count + sumCounts l := by
  simp [sumCounts]

theorem accumulate_count (New : String → UserAgent) (v : gt) (s : bstat) :
    (accumulate New v s).count = wrapInt64 (v.count + s.Count) := by
  unfold accumulate
  split_ifs with h <;> simp [h]

theorem foldl_stepAt_count (New : String → UserAgent) (k : String) (stats : List bstat) (v : gt)
    (hv : wrapInt64 v.count = v.count) :
    (stats.foldl (stepAt New k) v).count =
      wrapInt64 (v.count + sumCounts (rowsAt New stats k)) := by
  induction stats generalizing v with
  | nil => simp [rowsAt, sumCounts, hv]
  | cons s rest ih =>
    simp only [List.foldl_cons]
    by_cases hm : kept New s = true ∧ rowKey New s = k
    · have e : rowsAt New (s :: rest) k = s :: rowsAt New rest k := by
        simp [rowsAt, List.filter_cons, hm.1, hm.2]
      have hc : (stepAt New k v s).count = wrapInt64 (v.count + s.Count) := by
        simp only [stepAt, if_pos hm, accumulate_count]
      rw [ih (stepAt New k v s) (by rw [hc, wrapInt64_idem]), hc, e, sumCounts_cons,
        wrapInt64_add_wrap, add_assoc]
    · have e : rowsAt New (s :: rest) k = rowsAt New rest k := by
        have : (kept New s && decide (rowKey New s = k)) = false := by
          by_cases h1 : kept New s = true
          · have h2 : rowKey New s ≠ k := fun h => hm ⟨h1, h⟩
            simp [h1, h2]
          · simp [h1]
        simp [rowsAt, List.filter_cons, this]
      have hs : stepAt New k v s = v := by simp only [stepAt, if_neg hm]
      rw [hs, ih v hv, e]

theorem accumulate_recorded (New : String → UserAgent) (L : List bstat) (k : String) (v : gt)
    (s : bstat) (hs : s ∈ L) (hm : kept New s = true ∧ rowKey New s = k)
    (hv : v.count ≠ 0 → RecordedFrom New L k v) :
    RecordedFrom New L k (accumulate New v s) := by
  unfold accumulate
  by_cases h0 : v.count = 0
  · exact ⟨s, hs, hm.1, hm.2, by simp [h0, recorded, rowTriple], by simp [h0]⟩
  · obtain ⟨s0, h1, h2, h3, h4, h5⟩ := hv h0
    refine ⟨s0, h1, h2, h3, ?_, ?_⟩
    · simpa [h0, recorded] using h4
    · simpa [h0] using h5

theorem stepAt_recorded (New : String → UserAgent) (L : List bstat) (k : String) (v : gt)
    (s : bstat) (hs : s ∈ L) (hv : RecordedFrom New L k v) :
    RecordedFrom New L k (stepAt New k v s) := by
  unfold stepAt
  split_ifs with hm
  · exact accumulate_recorded New L k v s hs hm (fun _ => hv)
  · exact hv

theorem foldl_recorded (New : String → UserAgent) (L : List bstat) (k : String)
    (stats : List bstat) (hsub : ∀ s ∈ stats, s ∈ L) (v : gt) (hv : RecordedFrom New L k v) :
    RecordedFrom New L k (stats.foldl (stepAt New k) v) := by
  induction stats generalizing v with
  | nil => exact hv
  | cons s rest ih =>
    simp only [List.foldl_cons]
    exact ih (fun x hx => hsub x (List.mem_cons_of_mem _ hx)) _
      (stepAt_recorded New L k v s (hsub s (List.mem_cons_self _ _)) hv)

theorem foldl_recorded_of_exists (New : String → UserAgent) (L : List bstat) (k : String)
    (stats : List bstat) (hsub : ∀ s ∈ stats, s ∈ L) (v : gt)
    (hv : v.count ≠ 0 → RecordedFrom New L k v)
    (hex : ∃ s ∈ stats, kept New s = true ∧ rowKey New s = k) :
    RecordedFrom New L k (stats.foldl (stepAt New k) v) := by
  induction stats generalizing v with
  | nil => simp at hex
  | cons s rest ih =>
    simp only [List.foldl_cons]
    have hsub' : ∀ x ∈ rest, x ∈ L := fun x hx => hsub x (List.mem_cons_of_mem _ hx)
    by_cases hm : kept New s = true ∧ rowKey New s = k
    · apply foldl_recorded New L k rest hsub'
      simp only [stepAt, if_pos hm]
      exact accumulate_recorded New L k v s (hsub s (List.mem_cons_self _ _)) hm hv
    · have hs : stepAt New k v s = v := by simp only [stepAt, if_neg hm]
      rw [hs]
      apply ih hsub' v hv
      obtain ⟨x, hx, hx'⟩ := hex
      rcases List.mem_cons.1 hx with rfl | hx
      · exact absurd hx' hm
      · exact ⟨x, hx, hx'⟩

/-- What holds of every entry of the map the loop builds. -/
theorem groupStats_entry (New : String → UserAgent) (stats : List bstat) (k : String) (g : gt)
    (h : (k, g) ∈ groupStats New stats) :
    RecordedFrom New stats k g ∧ g.count = wrapInt64 (sumCounts (rowsAt New stats k)) := by
  have hg : mapGet (groupStats New stats) k = g :=
    mapGet_of_mem _ k g (groupStats_nodup New stats) h
  rw [groupStats_get] at hg
  have hk : k ∈ (groupStats New stats).map Prod.fst := List.mem_map_of_mem Prod.fst h
  rw [groupStats_keys] at hk
  constructor
  · rw [← hg]
    exact foldl_recorded_of_exists New stats k stats (fun _ hx => hx) gt.zero
      (fun h0 => absurd rfl h0) hk
  · rw [← hg, foldl_stepAt_count New k stats gt.zero (by simp [gt.zero, wrapInt64_zero])]
    simp [gt.zero]

theorem rowKey_eq_of_triple (New : String → UserAgent) (s1 s2 : bstat)
    (h : rowTriple New s1 = rowTriple New s2) : rowKey New s1 = rowKey New s2 := by
  unfold rowTriple at h
  unfold rowKey
  simp only [Prod.mk.injEq] at h
  rw [h.1, h.2.1, h.2.2]

theorem groupStats_entry_key (New : String → UserAgent) (stats : List bstat) (k : String)
    (g : gt) (h : (k, g) ∈ groupStats New stats) :
    k = groupKey g.day g.browser g.version := by
  obtain ⟨s0, -, -, h3, h4, -⟩ := (groupStats_entry New stats k g h).1
  unfold recorded rowTriple at h4
  simp only [Prod.mk.injEq] at h4
  rw [← h3, h4.1, h4.2.1, h4.2.2]
  rfl

/-! ## The grouping loop: counts, keys and groups -/

theorem groups_mem (New : String → UserAgent) (stats : List bstat) (g : gt) :
    g ∈ groups New stats ↔ ∃ k, (k, g) ∈ groupStats New stats := by
  unfold groups
  simp

theorem rowsAt_eq_rowsOf (New : String → UserAgent) (stats : List bstat)
    (hclash : NoKeyClash New stats) (s0 : bstat) (h0 : s0 ∈ stats) (hk : kept New s0 = true) :
    rowsAt New stats (rowKey New s0) = rowsOf New stats (rowTriple New s0) := by
  unfold rowsAt rowsOf
  apply List.filter_congr
  intro s hs
  by_cases h1 : kept New s = true
  · by_cases h2 : rowTriple New s = rowTriple New s0
    · simp [h1, h2, rowKey_eq_of_triple New s s0 h2]
    · have h3 : rowKey New s ≠ rowKey New s0 := fun e => h2 (hclash s hs s0 h0 h1 hk e)
      simp [h1, h2, h3]
  · simp [h1]

/-- The count of every group the loop produces is the sum, in Go's 64-bit
`int`, of the counts of the kept raw rows whose key string is the key string
of the group's recorded (day, browser, version).  When no two kept raw rows
with different (day, family, version) have the same key string, these are
the raw rows whose (day, family, version) is the group's recorded one, and
the count is their sum itself whenever that sum is within the bounds of
`int`. -/
theorem group_count_is_sum (New : String → UserAgent) (stats : List bstat)
    (g : gt) (hg : g ∈ groups New stats) :
    g.count = wrapInt64 (sumCounts (rowsAt New stats (groupKey g.day g.browser g.version))) ∧
    (NoKeyClash New stats →
      rowsAt New stats (groupKey g.day g.browser g.version) = rowsOf New stats (recorded g) ∧
      g.count = wrapInt64 (sumCounts (rowsOf New stats (recorded g))) ∧
      (inInt64 (sumCounts (rowsOf New stats (recorded g))) →
        g.count = sumCounts (rowsOf New stats (recorded g)))) := by
  obtain ⟨k, hk⟩ := (groups_mem New stats g).1 hg
  obtain ⟨⟨s0, h1, h2, h3, h4, -⟩, hc⟩ := groupStats_entry New stats k g hk
  have hkey : k = groupKey g.day g.browser g.version := groupStats_entry_key New stats k g hk
  refine ⟨by rw [hc, hkey], ?_⟩
  intro hclash
  have hrows : rowsAt New stats (groupKey g.day g.browser g.version) =
      rowsOf New stats (recorded g) := by
    rw [← hkey, ← h3, h4, rowsAt_eq_rowsOf New stats hclash s0 h1 h2]
  have e : g.count = wrapInt64 (sumCounts (rowsOf New stats (recorded g))) := by
    rw [hc, hkey, hrows]
  exact ⟨hrows, e, fun hr => by rw [e, wrapInt64_of_inInt64 _ hr]⟩

theorem rowTriple_mem_of_group (New : String → UserAgent) (stats : List bstat) (g : gt)
    (hg : g ∈ groups New stats) :
    ∃ s0 ∈ stats, kept New s0 = true ∧ recorded g = rowTriple New s0 := by
  obtain ⟨k, hk⟩ := (groups_mem New stats g).1 hg
  obtain ⟨⟨s0, h1, h2, -, h4, -⟩, -⟩ := groupStats_entry New stats k g hk
  exact ⟨s0, h1, h2, h4⟩

theorem groups_recorded_nodup (New : String → UserAgent) (stats : List bstat) :
    ((groups New stats).map recorded).Nodup := by
  unfold groups
  rw [List.map_map]
  have hk := groupStats_nodup New stats
  apply List.Nodup.map_on _ (List.Nodup.of_map Prod.fst hk)
  rintro ⟨k1, g1⟩ h1 ⟨k2, g2⟩ h2 e
  have e1 := groupStats_entry_key New stats k1 g1 h1
  have e2 := groupStats_entry_key New stats k2 g2 h2
  simp only [Function.comp, recorded, Prod.mk.injEq] at e
  have hkk : k1 = k2 := by rw [e1, e2, e.1, e.2.1, e.2.2]
  exact List.inj_on_of_nodup_map hk h1 h2 hkk

theorem groupStats_keys_perm (New : String → UserAgent) (stats : List bstat) :
    ((groupStats New stats).map Prod.fst).Perm
      (((stats.filter (kept New)).map (rowKey New)).dedup) := by
  rw [List.perm_ext_iff_of_nodup (groupStats_nodup New stats) (List.nodup_dedup _)]
  intro k
  rw [groupStats_keys]
  simp only [List.mem_dedup, List.mem_map, List.mem_filter]
  constructor
  · rintro ⟨s, hs, hk, rfl⟩
    exact ⟨s, ⟨hs, hk⟩, rfl⟩
  · rintro ⟨s, ⟨hs, hk⟩, rfl⟩
    exact ⟨s, hs, hk, rfl⟩

/-- The map holds exactly one entry per distinct key string of the kept
rows, and a kept row is accumulated into the entry of its key string.  When
no two kept raw rows with different (day, family, version) have the same key
string, the entry a kept row is accumulated into records that row's (day,
family, version) and the output holds exactly one group per distinct (day,
family, version) of the kept rows. -/
theorem groups_keyed_by_triple (New : String → UserAgent) (stats : List bstat) :
    ((groupStats New stats).map Prod.fst).Perm
      (((stats.filter (kept New)).map (rowKey New)).dedup) ∧
    (∀ s ∈ stats, kept New s = true →
      (rowKey New s, mapGet (groupStats New stats) (rowKey New s)) ∈ groupStats New stats) ∧
    (NoKeyClash New stats →
      (∀ s1 ∈ stats, ∀ s2 ∈ stats, kept New s1 = true → kept New s2 = true →
        (rowKey New s1 = rowKey New s2 ↔ rowTriple New s1 = rowTriple New s2)) ∧
      (∀ s ∈ stats, kept New s = true →
        recorded (mapGet (groupStats New stats) (rowKey New s)) = rowTriple New s) ∧
      ((groups New stats).map recorded).Perm
        (((stats.filter (kept New)).map (rowTriple New)).dedup)) := by
  have hmem : ∀ s ∈ stats, kept New s = true →
      (rowKey New s, mapGet (groupStats New stats) (rowKey New s)) ∈ groupStats New stats :=
    fun s hs hk => mem_of_key_mem (groupStats New stats) (rowKey New s)
      ((groupStats_keys New stats _).2 ⟨s, hs, hk, rfl⟩)
  refine ⟨groupStats_keys_perm New stats, hmem, ?_⟩
  intro hclash
  have hrec : ∀ s ∈ stats, kept New s = true →
      recorded (mapGet (groupStats New stats) (rowKey New s)) = rowTriple New s := by
    intro s hs hk
    obtain ⟨⟨s0, h1, h2, h3, h4, -⟩, -⟩ := groupStats_entry New stats _ _ (hmem s hs hk)
    rw [h4]
    exact hclash s0 h1 s hs h2 hk h3
  refine ⟨?_, hrec, ?_⟩
  · intro s1 h1 s2 h2 k1 k2
    exact ⟨hclash s1 h1 s2 h2 k1 k2, rowKey_eq_of_triple New s1 s2⟩
  · rw [List.perm_ext_iff_of_nodup (groups_recorded_nodup New stats) (List.nodup_dedup _)]
    intro t
    simp only [List.mem_map, List.mem_dedup, List.mem_filter]
    constructor
    · rintro ⟨g, hg, rfl⟩
      obtain ⟨s0, h1, h2, h3⟩ := rowTriple_mem_of_group New stats g hg
      exact ⟨s0, ⟨h1, h2⟩, h3.symm⟩
    · rintro ⟨s, ⟨hs, hk⟩, rfl⟩
      exact ⟨_, (groups_mem New stats _).2 ⟨_, hmem s hs hk⟩, hrec s hs hk⟩

/-- C3: no two groups the loop produces carry the same recorded (day,
browser, version), so the rows handed to the insert of one run hold at most
one row per (site, day, browser, version). -/
theorem groups_distinct_triples (New : String → UserAgent) (stats : List bstat) (site : Site) :
    ((groups New stats).map recorded).Nodup ∧
    ((insertedRows New site stats).map
      (fun r => (r.site, r.day, r.browser, r.version))).Nodup := by
  refine ⟨groups_recorded_nodup New stats, ?_⟩
  have h := groups_recorded_nodup New stats
  unfold groups at h
  unfold insertedRows
  rw [List.map_map] at h ⊢
  have e : ((fun r : SummaryRow => (r.site, r.day, r.browser, r.version)) ∘
      fun kv : String × gt => summaryRow site kv.2) =
      (fun t : String × String × String => (site.ID, t)) ∘ (recorded ∘ Prod.snd) := by
    funext kv
    rfl
  rw [e, ← List.map_map]
  exact List.Nodup.map (fun a b hab => (Prod.mk.inj hab).2) h

/-! ## Discarded rows -/

theorem foldl_filter_kept (New : String → UserAgent) (stats : List bstat) (m : GroupMap) :
    (stats.filter (kept New)).foldl (groupStep New) m = stats.foldl (groupStep New) m := by
  induction stats generalizing m with
  | nil => rfl
  | cons s rest ih =>
    by_cases hk : kept New s = true
    · simp only [List.filter_cons, hk, if_true, List.foldl_cons, ih]
    · have e : groupStep New m s = m := by
        rw [groupStep_eq, if_neg hk]
      have hk' : kept New s = false := by simpa using hk
      rw [List.filter_cons_of_neg (by simp [hk']), List.foldl_cons, e, ih]

/-- C7: every group the loop produces has a non-empty family; a raw row whose
user agent classifies to the empty family leaves the map as it was, so the
groups are those of the kept rows alone; and a user agent whose parsed family
is "Android" classifies to ("", "", false). -/
theorem groups_family_nonempty (New : String → UserAgent) (stats : List bstat) :
    (∀ g ∈ groups New stats, g.browser ≠ "") ∧
    (∀ (m : GroupMap) (s : bstat), (getBrowser New s.Browser).1 = "" →
      groupStep New m s = m) ∧
    groups New stats = groups New (stats.filter (kept New)) ∧
    (∀ uaHeader, (New uaHeader).Browser.1 = "Android" →
      getBrowser New uaHeader = ("", "", false)) := by
  refine ⟨?_, ?_, ?_, ?_⟩
  · intro g hg
    obtain ⟨s0, -, h2, h3⟩ := rowTriple_mem_of_group New stats g hg
    unfold recorded rowTriple at h3
    simp only [Prod.mk.injEq] at h3
    rw [h3.2.1]
    simpa [kept] using h2
  · intro m s h
    rw [groupStep_eq]
    simp [kept, h]
  · unfold groups groupStats
    rw [foldl_filter_kept]
  · intro uaHeader h
    rw [getBrowser_table, if_pos h]

/-- C7, at an Android row between two Chrome rows: the Android row is
dropped and the Chrome group counts only the Chrome rows. -/
theorem groups_family_nonempty_witness :
    getBrowser androidParser "UA_droid" = ("", "", false) ∧
    groups androidParser androidRows =
      [{ count := 5, mobile := false, day := "2020-01-05", browser := "Chrome",
         version := "96" }] ∧
    (∀ g ∈ groups androidParser androidRows, g.browser ≠ "") :=
  ⟨(groups_family_nonempty androidParser androidRows).2.2.2 "UA_droid" (by decide),
    by decide, (groups_family_nonempty androidParser androidRows).1⟩

/-! ## The run: delete, then insert -/

theorem run_ok (New : String → UserAgent) (db : Storage) (pgsql : Bool) (site : Site)
    (table : List SummaryRow) (stats : List bstat)
    (hsel : db.SelectContext pgsql site.ID (watermark site) = Except.ok stats)
    (hdel : db.ExecContext = none) (hins : db.Finish = none) :
    updateBrowserStats New db pgsql site table =
      (deleteWindow site.ID (watermark site) table ++ insertedRows New site stats, none) := by
  unfold updateBrowserStats
  simp only [hsel, hdel, hins]

theorem run_fetch_failed (New : String → UserAgent) (db : Storage) (pgsql : Bool) (site : Site)
    (table : List SummaryRow) (err : GoError)
    (hsel : db.SelectContext pgsql site.ID (watermark site) = Except.error err) :
    updateBrowserStats New db pgsql site table =
      (table, some (GoError.wrap err "fetch data")) := by
  unfold updateBrowserStats
  simp only [hsel]

theorem run_delete_failed (New : String → UserAgent) (db : Storage) (pgsql : Bool) (site : Site)
    (table : List SummaryRow) (stats : List bstat) (err : GoError)
    (hsel : db.SelectContext pgsql site.ID (watermark site) = Except.ok stats)
    (hdel : db.ExecContext = some err) :
    updateBrowserStats New db pgsql site table = (table, some (GoError.wrap err "delete")) := by
  unfold updateBrowserStats
  simp only [hsel, hdel]

theorem run_insert_failed (New : String → UserAgent) (db : Storage) (pgsql : Bool) (site : Site)
    (table : List SummaryRow) (stats : List bstat) (err : GoError) (written : Nat)
    (hsel : db.SelectContext pgsql site.ID (watermark site) = Except.ok stats)
    (hdel : db.ExecContext = none) (hins : db.Finish = some (err, written)) :
    updateBrowserStats New db pgsql site table =
      (deleteWindow site.ID (watermark site) table ++
        (insertedRows New site stats).take written, some err) := by
  unfold updateBrowserStats
  simp only [hsel, hdel, hins]

theorem insertedRows_mem (New : String → UserAgent) (site : Site) (stats : List bstat)
    (r : SummaryRow) :
    r ∈ insertedRows New site stats ↔ ∃ g ∈ groups New stats, r = summaryRow site g := by
  unfold insertedRows groups
  simp only [List.mem_map]
  constructor
  · rintro ⟨kv, hkv, rfl⟩
    exact ⟨kv.2, ⟨kv, hkv, rfl⟩, rfl⟩
  · rintro ⟨g, ⟨kv, hkv, rfl⟩, rfl⟩
    exact ⟨kv, hkv, rfl⟩

theorem insertedRows_inWindow (New : String → UserAgent) (site : Site) (stats : List bstat)
    (hwin : ∀ s ∈ stats, dayGE s.CreatedAt.FormatDay (watermark site) = true)
    (r : SummaryRow) (hr : r ∈ insertedRows New site stats) :
    r.site = site.ID ∧ dayGE r.day (watermark site) = true := by
  obtain ⟨g, hg, rfl⟩ := (insertedRows_mem New site stats r).1 hr
  obtain ⟨s0, h1, -, h3⟩ := rowTriple_mem_of_group New stats g hg
  unfold recorded rowTriple at h3
  simp only [Prod.mk.injEq] at h3
  refine ⟨rfl, ?_⟩
  show dayGE g.day (watermark site) = true
  rw [h3.1]
  exact hwin s0 h1

theorem deleteWindow_mem (siteID : Int) (last : String) (table : List SummaryRow)
    (r : SummaryRow) :
    r ∈ deleteWindow siteID last table ↔
      r ∈ table ∧ ¬(r.site = siteID ∧ dayGE r.day last = true) := by
  unfold deleteWindow inWindow
  simp only [List.mem_filter, Bool.not_eq_true', Bool.and_eq_false_iff, decide_eq_false_iff_not,
    Bool.not_eq_true]
  constructor
  · rintro ⟨h, h' | h'⟩
    · exact ⟨h, fun hc => h' hc.1⟩
    · exact ⟨h, fun hc => by rw [hc.2] at h'; exact Bool.noConfusion h'⟩
  · rintro ⟨h, h'⟩
    refine ⟨h, ?_⟩
    by_cases hs : r.site = siteID
    · right
      cases hd : dayGE r.day last
      · rfl
      · exact absurd ⟨hs, hd⟩ h'
    · exact Or.inl hs

theorem deleteWindow_of_inWindow (siteID : Int) (last : String) (rows : List SummaryRow)
    (h : ∀ r ∈ rows, inWindow siteID last r = true) : deleteWindow siteID last rows = [] := by
  unfold deleteWindow
  rw [List.filter_eq_nil_iff]
  intro a ha
  simp [h a ha]

theorem deleteWindow_idem (siteID : Int) (last : String) (table : List SummaryRow) :
    deleteWindow siteID last (deleteWindow siteID last table) =
      deleteWindow siteID last table := by
  unfold deleteWindow
  rw [List.filter_filter]
  simp

theorem deleteWindow_append (siteID : Int) (last : String) (a b : List SummaryRow) :
    deleteWindow siteID last (a ++ b) =
      deleteWindow siteID last a ++ deleteWindow siteID last b := by
  unfold deleteWindow
  rw [List.filter_append]

theorem inWindow_iff (siteID : Int) (last : String) (r : SummaryRow) :
    inWindow siteID last r = true ↔ r.site = siteID ∧ dayGE r.day last = true := by
  unfold inWindow
  simp

theorem count_deleteWindow (siteID : Int) (last : String) (table : List SummaryRow)
    (r : SummaryRow) (h : inWindow siteID last r = false) :
    List.count r (deleteWindow siteID last table) = List.count r table := by
  unfold deleteWindow
  exact List.count_filter (by simp [h])

theorem run_count_outside (New : String → UserAgent) (db : Storage) (pgsql : Bool)
    (site : Site) (table : List SummaryRow) (r : SummaryRow)
    (hout : inWindow site.ID (watermark site) r = false)
    (hnot : ∀ stats, db.SelectContext pgsql site.ID (watermark site) = Except.ok stats →
      r ∉ insertedRows New site stats) :
    List.count r (updateBrowserStats New db pgsql site table).1 = List.count r table := by
  cases hsel : db.SelectContext pgsql site.ID (watermark site) with
  | error err => rw [run_fetch_failed New db pgsql site table err hsel]
  | ok stats =>
    have hnot1 := hnot stats hsel
    cases hdel : db.ExecContext with
    | some err => rw [run_delete_failed New db pgsql site table stats err hsel hdel]
    | none =>
      cases hins : db.Finish with
      | none =>
        rw [run_ok New db pgsql site table stats hsel hdel hins]
        simp only [List.count_append, count_deleteWindow _ _ _ r hout,
          List.count_eq_zero_of_not_mem hnot1, add_zero]
      | some ew =>
        obtain ⟨err, written⟩ := ew
        have hnot2 : r ∉ (insertedRows New site stats).take written :=
          fun hmem => hnot1 (List.mem_of_mem_take hmem)
        rw [run_insert_failed New db pgsql site table stats err written hsel hdel hins]
        simp only [List.count_append, count_deleteWindow _ _ _ r hout,
          List.count_eq_zero_of_not_mem hnot2, add_zero]

/-- C5: the delete of a run removes exactly the rows with site = tenant and
day >= watermark; every row handed to the insert has site = tenant and, when
the fetched rows are all on or after the watermark, day >= watermark.  Hence,
whatever the outcome of the three storage steps, a row of another tenant is
in the table after the run exactly as often as before, and so is a row of a
day before the watermark when the fetched rows are all on or after the
watermark. -/
theorem run_frame (New : String → UserAgent) (db : Storage) (pgsql : Bool)
    (site : Site) (table : List SummaryRow) :
    (∀ r, r ∈ deleteWindow site.ID (watermark site) table ↔
      r ∈ table ∧ ¬(r.site = site.ID ∧ dayGE r.day (watermark site) = true)) ∧
    (∀ stats, ∀ r ∈ insertedRows New site stats, r.site = site.ID) ∧
    (∀ stats, (∀ s ∈ stats, dayGE s.CreatedAt.FormatDay (watermark site) = true) →
      ∀ r ∈ insertedRows New site stats, dayGE r.day (watermark site) = true) ∧
    (∀ r : SummaryRow, r.site ≠ site.ID →
      List.count r (updateBrowserStats New db pgsql site table).1 = List.count r table) ∧
    ((∀ stats, db.SelectContext pgsql site.ID (watermark site) = Except.ok stats →
        ∀ s ∈ stats, dayGE s.CreatedAt.FormatDay (watermark site) = true) →
      ∀ r : SummaryRow, dayGE r.day (watermark site) = false →
        List.count r (updateBrowserStats New db pgsql site table).1 = List.count r table) := by
  have hsite : ∀ stats, ∀ r ∈ insertedRows New site stats, r.site = site.ID := by
    intro stats r hr
    obtain ⟨g, -, rfl⟩ := (insertedRows_mem New site stats r).1 hr
    rfl
  refine ⟨deleteWindow_mem _ _ _, hsite, ?_, ?_, ?_⟩
  · intro stats hwin r hr
    exact (insertedRows_inWindow New site stats hwin r hr).2
  · intro r hr
    apply run_count_outside New db pgsql site table r
    · unfold inWindow
      simp [hr]
    · intro stats _ hmem
      exact hr (hsite stats r hmem)
  · intro hwin r hr
    apply run_count_outside New db pgsql site table r
    · unfold inWindow
      simp [hr]
    · intro stats hsel hmem
      have := (insertedRows_inWindow New site stats (hwin stats hsel) r hmem).2
      rw [this] at hr
      exact Bool.noConfusion hr

/-- C5, at tenant 1 with `last_stat` = 2020-01-05: the row of 2020-01-04 and
the row of tenant 2 are in the table once before and once after the run. -/
theorem run_frame_witness :
    watermark site5 = "2020-01-05" ∧
    List.count earlierRow
      (updateBrowserStats chromeParser (okStorage sameDayRows) false site5 priorTable).1 = 1 ∧
    List.count otherTenantRow
      (updateBrowserStats chromeParser (okStorage sameDayRows) false site5 priorTable).1 = 1 :=
  ⟨by decide,
    ((run_frame chromeParser (okStorage sameDayRows) false site5 priorTable).2.2.2.2
      (fun stats h => by cases h; decide) earlierRow (by decide)).trans (by decide),
    ((run_frame chromeParser (okStorage sameDayRows) false site5 priorTable).2.2.2.1
      otherTenantRow (by decide)).trans (by decide)⟩

/-- C6: when the fetch returns the same rows and every storage step succeeds,
a second run for the same site right after the first leaves the same set of
summary rows as the first; when the fetched rows are all on or after the
watermark, each row is there exactly as often as after the first run. -/
theorem run_twice (New : String → UserAgent) (db : Storage) (pgsql : Bool)
    (site : Site) (table : List SummaryRow) (stats : List bstat)
    (hsel : db.SelectContext pgsql site.ID (watermark site) = Except.ok stats)
    (hdel : db.ExecContext = none) (hins : db.Finish = none) :
    (updateBrowserStats New db pgsql site
      (updateBrowserStats New db pgsql site table).1).2 = none ∧
    (∀ r, r ∈ (updateBrowserStats New db pgsql site
        (updateBrowserStats New db pgsql site table).1).1 ↔
      r ∈ (updateBrowserStats New db pgsql site table).1) ∧
    ((∀ s ∈ stats, dayGE s.CreatedAt.FormatDay (watermark site) = true) →
      (updateBrowserStats New db pgsql site
        (updateBrowserStats New db pgsql site table).1).1.Perm
      (updateBrowserStats New db pgsql site table).1) := by
  rw [run_ok New db pgsql site table stats hsel hdel hins]
  rw [run_ok New db pgsql site _ stats hsel hdel hins]
  refine ⟨rfl, ?_, ?_⟩
  · intro r
    simp only [deleteWindow_append, deleteWindow_idem, List.mem_append]
    constructor
    · rintro ((h | h) | h)
      · exact Or.inl h
      · exact Or.inr ((deleteWindow_mem _ _ _ r).1 h).1
      · exact Or.inr h
    · rintro (h | h)
      · exact Or.inl (Or.inl h)
      · exact Or.inr h
  · intro hwin
    have hin := insertedRows_inWindow New site stats hwin
    show (deleteWindow site.ID (watermark site)
      (deleteWindow site.ID (watermark site) table ++ insertedRows New site stats) ++
        insertedRows New site stats).Perm _
    rw [deleteWindow_append, deleteWindow_idem,
      deleteWindow_of_inWindow _ _ _ (fun r hr => (inWindow_iff _ _ r).2 (hin r hr)),
      List.append_nil]

/-- C6, at tenant 1 with `last_stat` = 2020-01-05: the second run leaves the
table of the first run. -/
theorem run_twice_witness :
    (updateBrowserStats chromeParser (okStorage sameDayRows) false site5 priorTable).1 =
      afterTable ∧
    (updateBrowserStats chromeParser (okStorage sameDayRows) false site5 afterTable).1 =
      afterTable ∧
    (updateBrowserStats chromeParser (okStorage sameDayRows) false site5
      (updateBrowserStats chromeParser (okStorage sameDayRows) false site5 priorTable).1).1.Perm
      (updateBrowserStats chromeParser (okStorage sameDayRows) false site5 priorTable).1 :=
  ⟨by decide, by decide,
    (run_twice chromeParser (okStorage sameDayRows) false site5 priorTable sameDayRows
      rfl rfl rfl).2.2 (by decide)⟩

/-! ## The classifier: mobile flag and fixed points -/

theorem majorOf_idem (version : String) : majorOf (majorOf version) = majorOf version :=
  majorOf_of_no_dot _ (majorOf_count version)

theorem minorOf_of_short (version : String) (h : (stringsSplit version '.').length ≤ 2) :
    minorOf version = version :=
  (minorOf_cases version).2.2 h

theorem minorOf_idem (version : String) : minorOf (minorOf version) = minorOf version :=
  minorOf_of_short _ (minorOf_cases version).1

theorem minorOf_count (version : String) : stringsCount (minorOf version) '.' ≤ 1 := by
  have h := (minorOf_cases version).1
  rw [stringsSplit_length] at h
  omega

/-- C16 (as amended): for every user agent whose parsed family is not
"Android", the mobile flag `getBrowser` returns is the parser's `Mobile()`;
for a parsed family "Android" the returned flag is `false` whatever the
parser detects. -/
theorem getBrowser_mobile (New : String → UserAgent) (uaHeader : String) :
    ((New uaHeader).Browser.1 ≠ "Android" →
      (getBrowser New uaHeader).2.2 = (New uaHeader).Mobile) ∧
    ((New uaHeader).Browser.1 = "Android" → (getBrowser New uaHeader).2.2 = false) := by
  constructor
  · intro h
    rw [getBrowser_table, if_neg h]
    split_ifs <;> rfl
  · intro h
    rw [getBrowser_table, if_pos h]

/-- C16, at a Chrome user agent: the flag is the parser's. -/
theorem getBrowser_mobile_witness :
    (getBrowser androidParser "UA_A").2.2 = (androidParser "UA_A").Mobile :=
  (getBrowser_mobile androidParser "UA_A").1 (by decide)

/-- C16 as stated fails: for the user agent "UA_droid" the parser reports
the family Android on a mobile device, and `getBrowser` returns the flag
`false`. -/
theorem getBrowser_mobile_counterexample :
    (androidParser "UA_droid").Mobile = true ∧
    (getBrowser androidParser "UA_droid").2.2 = false := by
  decide

/-- C18: the correction rules are idempotent: a parser that reports the
(family, version, mobile) `getBrowser` returned for a user agent is given
that same (family, version, mobile) back. -/
theorem getBrowser_idempotent (New : String → UserAgent) (uaHeader other : String) :
    getBrowser (constParser (getBrowser New uaHeader).1 (getBrowser New uaHeader).2.1
      (getBrowser New uaHeader).2.2) other = getBrowser New uaHeader := by
  rw [getBrowser_table New uaHeader]
  split_ifs with h1 h2 h3 h4
  · rw [getBrowser_table]
    simp [constParser]
  · rw [getBrowser_table]
    simp [constParser, majorOf_idem]
  · rw [getBrowser_table]
    simp [constParser, majorOf_idem]
  · rw [getBrowser_table]
    have hc : stringsCount (minorOf (New uaHeader).Browser.2) '.' ≠ 3 := by
      have := minorOf_count (New uaHeader).Browser.2
      omega
    simp [constParser, minorOf_idem, hc]
  · rw [getBrowser_table]
    simp only [not_or] at h2
    simp [constParser, h1, h2.1, h2.2.1, h3, h4]

/-! ## The watermark -/

theorem digitChar_isDigit (m : Nat) (h : m < 10) : (Nat.digitChar m).isDigit = true := by
  interval_cases m <;> decide

theorem toDigitsCore_allDigits (fuel n : Nat) (ds : List Char) (h : allDigits ds) :
    allDigits (Nat.toDigitsCore 10 fuel n ds) := by
  induction fuel generalizing n ds with
  | zero => simpa [Nat.toDigitsCore] using h
  | succ f ih =>
    have hd : allDigits (Nat.digitChar (n % 10) :: ds) := by
      intro c hc
      rcases List.mem_cons.1 hc with rfl | hc
      · exact digitChar_isDigit _ (Nat.mod_lt _ (by decide))
      · exact h c hc
    simp only [Nat.toDigitsCore]
    split_ifs
    · exact hd
    · exact ih _ _ hd

theorem toDigits_allDigits (n : Nat) : allDigits (Nat.toDigits 10 n) :=
  toDigitsCore_allDigits _ _ _ (fun _ h => absurd h (List.not_mem_nil _))

theorem toDigits_length_le (n w : Nat) (hw : 0 < w) (h : n < 10 ^ w) :
    (Nat.toDigits 10 n).length ≤ w :=
  Nat.toDigitsCore_length 10 (by decide) (n + 1) n w h hw

theorem appendInt_shape (x : Int) (w : Nat) (hw : 0 < w) (h0 : 0 ≤ x) (h : x.natAbs < 10 ^ w) :
    (appendInt x w).data.length = w ∧ allDigits (appendInt x w).data := by
  have hlen := toDigits_length_le x.natAbs w hw h
  have hneg : ¬ x < 0 := not_lt.2 h0
  unfold appendInt
  simp only [if_neg hneg, String.data_append]
  constructor
  · simp only [List.length_append, List.length_replicate]
    show ("" : String).data.length + _ = w
    simp
    omega
  · intro c hc
    simp only [List.mem_append, List.mem_replicate] at hc
    rcases hc with hc | hc | hc
    · exact absurd hc (List.not_mem_nil _)
    · rw [hc.2]
      decide
    · exact toDigits_allDigits _ c hc

theorem formatDay_shape (t : Time) (hy0 : 0 ≤ t.Year) (hy : t.Year ≤ 9999)
    (hm : t.Month < 100) (hd : t.Day < 100) :
    ∃ y m d : List Char, t.FormatDay.data = y ++ '-' :: (m ++ '-' :: d) ∧
      y.length = 4 ∧ m.length = 2 ∧ d.length = 2 ∧
      allDigits y ∧ allDigits m ∧ allDigits d := by
  have h1 := appendInt_shape t.Year 4 (by decide) hy0 (by omega)
  have h2 := appendInt_shape (t.Month : Int) 2 (by decide) (by omega) (by simpa using hm)
  have h3 := appendInt_shape (t.Day : Int) 2 (by decide) (by omega) (by simpa using hd)
  refine ⟨_, _, _, ?_, h1.1, h2.1, h3.1, h1.2, h2.2, h3.2⟩
  unfold Time.FormatDay
  simp [String.data_append]

theorem formatDay_length (t : Time) (hy0 : 0 ≤ t.Year) (hy : t.Year ≤ 9999)
    (hm : t.Month < 100) (hd : t.Day < 100) : t.FormatDay.data.length = 10 := by
  obtain ⟨y, m, d, e, h1, h2, h3, -⟩ := formatDay_shape t hy0 hy hm hd
  rw [e]
  simp [h1, h2, h3]

theorem run_depends_on_answers (New : String → UserAgent) (db db' : Storage) (pgsql : Bool)
    (site : Site) (table : List SummaryRow)
    (hsel : db'.SelectContext pgsql site.ID (watermark site) =
      db.SelectContext pgsql site.ID (watermark site))
    (hdel : db'.ExecContext = db.ExecContext) (hins : db'.Finish = db.Finish) :
    updateBrowserStats New db' pgsql site table = updateBrowserStats New db pgsql site table := by
  unfold updateBrowserStats
  simp only [hsel, hdel, hins]

/-- C11: the watermark is "1970-01-01" when `LastStat` is unset and otherwise
the text `Format("2006-01-02")` gives `LastStat`: year, month and day joined
by dashes, whatever the time of day, four digits, two digits and two digits
for a year from 0 to 9999.  The run asks the select for the rows of the site
at that watermark only, and a run whose fetch and delete succeed has deleted
the rows of the site with day >= that same watermark. -/
theorem watermark_of_last_stat (site : Site) :
    (site.LastStat = none → watermark site = "1970-01-01") ∧
    (∀ t, site.LastStat = some t →
      watermark site =
        appendInt t.Year 4 ++ "-" ++ appendInt t.Month 2 ++ "-" ++ appendInt t.Day 2 ∧
      (∀ t' : Time, t'.Year = t.Year → t'.Month = t.Month → t'.Day = t.Day →
        t'.FormatDay = watermark site) ∧
      (0 ≤ t.Year → t.Year ≤ 9999 → t.Month < 100 → t.Day < 100 →
        ∃ y m d : List Char, (watermark site).data = y ++ '-' :: (m ++ '-' :: d) ∧
          y.length = 4 ∧ m.length = 2 ∧ d.length = 2 ∧
          allDigits y ∧ allDigits m ∧ allDigits d)) ∧
    (∀ (New : String → UserAgent) (db db' : Storage) (pgsql : Bool) (table : List SummaryRow),
      db'.SelectContext pgsql site.ID (watermark site) =
        db.SelectContext pgsql site.ID (watermark site) →
      db'.ExecContext = db.ExecContext → db'.Finish = db.Finish →
      updateBrowserStats New db' pgsql site table =
        updateBrowserStats New db pgsql site table) ∧
    (∀ (New : String → UserAgent) (db : Storage) (pgsql : Bool) (table : List SummaryRow)
      (stats : List bstat),
      db.SelectContext pgsql site.ID (watermark site) = Except.ok stats →
      db.ExecContext = none →
      ∃ written, (updateBrowserStats New db pgsql site table).1 =
        deleteWindow site.ID (watermark site) table ++ written) := by
  refine ⟨?_, ?_, ?_, ?_⟩
  · intro h
    simp only [watermark, h]
  · intro t h
    refine ⟨?_, ?_, ?_⟩
    · simp only [watermark, h]
      rfl
    · intro t' hy hm hd
      simp only [watermark, h, Time.FormatDay, hy, hm, hd]
    · intro hy0 hy hm hd
      have e : watermark site = t.FormatDay := by simp only [watermark, h]
      rw [e]
      exact formatDay_shape t hy0 hy hm hd
  · intro New db db' pgsql table hsel hdel hins
    exact run_depends_on_answers New db db' pgsql site table hsel hdel hins
  · intro New db pgsql table stats hsel hdel
    cases hins : db.Finish with
    | none => exact ⟨_, by rw [run_ok New db pgsql site table stats hsel hdel hins]⟩
    | some ew =>
      obtain ⟨err, n⟩ := ew
      exact ⟨_, by rw [run_insert_failed New db pgsql site table stats err n hsel hdel hins]⟩

/-- C11, at a site without `last_stat` and at `last_stat` = 2020-01-05 14:30. -/
theorem watermark_of_last_stat_witness :
    watermark { ID := 1, LastStat := none } = "1970-01-01" ∧
    watermark site5 = "2020-01-05" ∧
    (updateBrowserStats chromeParser (okStorage sameDayRows) false site5 priorTable).1 =
      deleteWindow 1 "2020-01-05" priorTable ++ insertedRows chromeParser site5 sameDayRows :=
  ⟨(watermark_of_last_stat { ID := 1, LastStat := none }).1 rfl,
    ((watermark_of_last_stat site5).2.1 lastStat rfl).1.trans (by decide),
    by decide⟩

/-! ## Errors -/

/-- The run returns no error exactly when the fetch, the delete and the
insert all succeed. -/
theorem run_error_iff (New : String → UserAgent) (db : Storage) (pgsql : Bool) (site : Site)
    (table : List SummaryRow) :
    (updateBrowserStats New db pgsql site table).2 = none ↔
      (∃ stats, db.SelectContext pgsql site.ID (watermark site) = Except.ok stats) ∧
        db.ExecContext = none ∧ db.Finish = none := by
  cases hsel : db.SelectContext pgsql site.ID (watermark site) with
  | error err =>
    rw [run_fetch_failed New db pgsql site table err hsel]
    simp
  | ok stats =>
    cases hdel : db.ExecContext with
    | some err =>
      rw [run_delete_failed New db pgsql site table stats err hsel hdel]
      simp
    | none =>
      cases hins : db.Finish with
      | none =>
        rw [run_ok New db pgsql site table stats hsel hdel hins]
        simp
      | some ew =>
        obtain ⟨err, n⟩ := ew
        rw [run_insert_failed New db pgsql site table stats err n hsel hdel hins]
        simp

/-- The error of a failed insert is returned as `Finish` gave it. -/
theorem run_insert_error (New : String → UserAgent) (db : Storage) (pgsql : Bool) (site : Site)
    (table : List SummaryRow) (stats : List bstat) (err : GoError) (written : Nat)
    (hsel : db.SelectContext pgsql site.ID (watermark site) = Except.ok stats)
    (hdel : db.ExecContext = none) (hins : db.Finish = some (err, written)) :
    (updateBrowserStats New db pgsql site table).2 = some err := by
  rw [run_insert_failed New db pgsql site table stats err written hsel hdel hins]

/-- C12, evaluated: a failed fetch returns the storage error wrapped with
"fetch data", a failed delete returns it wrapped with "delete", and a failed
bulk insert returns the error of `Finish` itself, with no label added. -/
theorem run_error_labels :
    (updateBrowserStats chromeParser readFailStorage false site5 priorTable).2 =
      some (GoError.wrap (GoError.storage "connection lost") "fetch data") ∧
    (updateBrowserStats chromeParser deleteFailStorage false site5 priorTable).2 =
      some (GoError.wrap (GoError.storage "table locked") "delete") ∧
    (updateBrowserStats chromeParser writeFailStorage false site5 priorTable).2 =
      some (GoError.storage "disk full") := by
  decide

/-- C15: when the fetch fails the run returns the table as it was and the
fetch error (wrapped with "fetch data"), whatever the delete and the insert
would have answered and whatever the parser; when the delete fails the run
returns the table as it was and the delete error (wrapped with "delete"),
whatever the insert would have answered. -/
theorem run_stops_at_failed_step (New : String → UserAgent) (db : Storage) (pgsql : Bool)
    (site : Site) (table : List SummaryRow) :
    (∀ err, db.SelectContext pgsql site.ID (watermark site) = Except.error err →
      updateBrowserStats New db pgsql site table =
        (table, some (GoError.wrap err "fetch data")) ∧
      ∀ (New' : String → UserAgent) (db' : Storage),
        db'.SelectContext pgsql site.ID (watermark site) = Except.error err →
        updateBrowserStats New' db' pgsql site table =
          updateBrowserStats New db pgsql site table) ∧
    (∀ stats err, db.SelectContext pgsql site.ID (watermark site) = Except.ok stats →
      db.ExecContext = some err →
      updateBrowserStats New db pgsql site table = (table, some (GoError.wrap err "delete")) ∧
      ∀ (New' : String → UserAgent) (db' : Storage),
        db'.SelectContext pgsql site.ID (watermark site) = Except.ok stats →
        db'.ExecContext = some err →
        updateBrowserStats New' db' pgsql site table =
          updateBrowserStats New db pgsql site table) := by
  constructor
  · intro err hsel
    refine ⟨run_fetch_failed New db pgsql site table err hsel, ?_⟩
    intro New' db' hsel'
    rw [run_fetch_failed New db pgsql site table err hsel,
      run_fetch_failed New' db' pgsql site table err hsel']
  · intro stats err hsel hdel
    refine ⟨run_delete_failed New db pgsql site table stats err hsel hdel, ?_⟩
    intro New' db' hsel' hdel'
    rw [run_delete_failed New db pgsql site table stats err hsel hdel,
      run_delete_failed New' db' pgsql site table stats err hsel' hdel']

/-- C15, at a failing fetch and at a failing delete: the table is the one
before the run. -/
theorem run_stops_at_failed_step_witness :
    updateBrowserStats chromeParser readFailStorage false site5 priorTable =
      (priorTable, some (GoError.wrap (GoError.storage "connection lost") "fetch data")) ∧
    updateBrowserStats chromeParser deleteFailStorage false site5 priorTable =
      (priorTable, some (GoError.wrap (GoError.storage "table locked") "delete")) :=
  ⟨((run_stops_at_failed_step chromeParser readFailStorage false site5 priorTable).1
      (GoError.storage "connection lost") rfl).1,
    ((run_stops_at_failed_step chromeParser deleteFailStorage false site5 priorTable).2
      sameDayRows (GoError.storage "table locked") rfl rfl).1⟩

/-! ## The order of the raw rows -/

theorem groupStats_count_at (New : String → UserAgent) (stats : List bstat) (k : String) :
    (mapGet (groupStats New stats) k).count = wrapInt64 (sumCounts (rowsAt New stats k)) := by
  rw [groupStats_get, foldl_stepAt_count New k stats gt.zero (by simp [gt.zero, wrapInt64_zero])]
  simp [gt.zero]

theorem sumCounts_perm (l l' : List bstat) (h : l.Perm l') : sumCounts l = sumCounts l' := by
  unfold sumCounts
  exact (h.map bstat.Count).sum_eq

theorem rowsAt_perm (New : String → UserAgent) (stats stats' : List bstat) (k : String)
    (h : stats.Perm stats') : (rowsAt New stats k).Perm (rowsAt New stats' k) := by
  unfold rowsAt
  exact h.filter _

theorem groupStats_keys_of_perm (New : String → UserAgent) (stats stats' : List bstat)
    (h : stats.Perm stats') (k : String) :
    k ∈ (groupStats New stats).map Prod.fst ↔ k ∈ (groupStats New stats').map Prod.fst := by
  rw [groupStats_keys, groupStats_keys]
  constructor
  · rintro ⟨s, hs, h1⟩
    exact ⟨s, h.mem_iff.1 hs, h1⟩
  · rintro ⟨s, hs, h1⟩
    exact ⟨s, h.mem_iff.2 hs, h1⟩

theorem groupStats_count_of_perm (New : String → UserAgent) (stats stats' : List bstat)
    (h : stats.Perm stats') (k : String) :
    (mapGet (groupStats New stats) k).count = (mapGet (groupStats New stats') k).count := by
  rw [groupStats_count_at, groupStats_count_at,
    sumCounts_perm _ _ (rowsAt_perm New stats stats' k h)]

theorem keyCounts_nodup (New : String → UserAgent) (stats : List bstat) :
    (keyCounts (groupStats New stats)).Nodup := by
  apply List.Nodup.of_map Prod.fst
  unfold keyCounts
  rw [List.map_map]
  exact groupStats_nodup New stats

theorem keyCounts_mem (New : String → UserAgent) (stats : List bstat) (k : String) (c : Int) :
    (k, c) ∈ keyCounts (groupStats New stats) ↔
      k ∈ (groupStats New stats).map Prod.fst ∧ (mapGet (groupStats New stats) k).count = c := by
  unfold keyCounts
  simp only [List.mem_map, Prod.mk.injEq]
  constructor
  · rintro ⟨⟨k', g⟩, hm, rfl, rfl⟩
    exact ⟨⟨(k', g), hm, rfl⟩, by rw [mapGet_of_mem _ k' g (groupStats_nodup New stats) hm]⟩
  · rintro ⟨⟨⟨k', g⟩, hm, rfl⟩, hc⟩
    refine ⟨(k', g), hm, rfl, ?_⟩
    rw [← hc, mapGet_of_mem _ k' g (groupStats_nodup New stats) hm]

theorem noKeyClash_of_perm (New : String → UserAgent) (stats stats' : List bstat)
    (h : stats.Perm stats') (hc : NoKeyClash New stats) : NoKeyClash New stats' :=
  fun s1 h1 s2 h2 => hc s1 (h.mem_iff.2 h1) s2 (h.mem_iff.2 h2)

theorem tripleCounts_nodup (New : String → UserAgent) (stats : List bstat) :
    (tripleCounts (groups New stats)).Nodup := by
  apply List.Nodup.of_map Prod.fst
  unfold tripleCounts
  rw [List.map_map]
  exact groups_recorded_nodup New stats

theorem tripleCounts_subset_of_perm (New : String → UserAgent) (stats stats' : List bstat)
    (h : stats.Perm stats') (hc : NoKeyClash New stats) (x : (String × String × String) × Int)
    (hx : x ∈ tripleCounts (groups New stats)) : x ∈ tripleCounts (groups New stats') := by
  unfold tripleCounts at hx ⊢
  simp only [List.mem_map] at hx ⊢
  obtain ⟨g, hg, rfl⟩ := hx
  obtain ⟨k, hk⟩ := (groups_mem New stats g).1 hg
  obtain ⟨⟨s0, h1, h2, h3, h4, -⟩, -⟩ := groupStats_entry New stats k g hk
  have hkey' : k ∈ (groupStats New stats').map Prod.fst :=
    (groupStats_keys_of_perm New stats stats' h k).1 (List.mem_map_of_mem Prod.fst hk)
  have hmem' := mem_of_key_mem _ k hkey'
  obtain ⟨⟨s1, g1, g2, g3, g4, -⟩, -⟩ := groupStats_entry New stats' k _ hmem'
  refine ⟨mapGet (groupStats New stats') k, (groups_mem New stats' _).2 ⟨k, hmem'⟩, ?_⟩
  have e1 : recorded (mapGet (groupStats New stats') k) = recorded g := by
    rw [g4, h4]
    exact hc s1 (h.mem_iff.2 g1) s0 h1 g2 h2 (g3.trans h3.symm)
  have e2 : (mapGet (groupStats New stats') k).count = g.count := by
    rw [← groupStats_count_of_perm New stats stats' h k,
      mapGet_of_mem _ k g (groupStats_nodup New stats) hk]
  rw [e1, e2]

/-- For every permutation of the raw rows the map has the same key strings
and the same count under each key string; when no two kept rows with
different (day, family, version) have the same key string, the groups also
carry the same pairs (recorded (day, browser, version), count). -/
theorem groupStats_order_irrelevant (New : String → UserAgent) (stats stats' : List bstat)
    (h : stats.Perm stats') :
    (∀ k, k ∈ (groupStats New stats).map Prod.fst ↔ k ∈ (groupStats New stats').map Prod.fst) ∧
    (∀ k, (mapGet (groupStats New stats) k).count =
      (mapGet (groupStats New stats') k).count) ∧
    (keyCounts (groupStats New stats)).Perm (keyCounts (groupStats New stats')) ∧
    (NoKeyClash New stats →
      (tripleCounts (groups New stats)).Perm (tripleCounts (groups New stats'))) := by
  refine ⟨groupStats_keys_of_perm New stats stats' h,
    groupStats_count_of_perm New stats stats' h, ?_, ?_⟩
  · rw [List.perm_ext_iff_of_nodup (keyCounts_nodup New stats) (keyCounts_nodup New stats')]
    rintro ⟨k, c⟩
    rw [keyCounts_mem, keyCounts_mem, groupStats_keys_of_perm New stats stats' h k,
      groupStats_count_of_perm New stats stats' h k]
  · intro hc
    rw [List.perm_ext_iff_of_nodup (tripleCounts_nodup New stats) (tripleCounts_nodup New stats')]
    intro x
    exact ⟨tripleCounts_subset_of_perm New stats stats' h hc x,
      tripleCounts_subset_of_perm New stats' stats h.symm
        (noKeyClash_of_perm New stats stats' h hc) x⟩

/-! ## The total of the counts -/

theorem wrapInt64_congr_add (a x y : Int) (h : wrapInt64 x = wrapInt64 y) :
    wrapInt64 (a + x) = wrapInt64 (a + y) := by
  unfold wrapInt64 at *
  omega

theorem wrapInt64_sum_map (l : List String) (f : String → Int) :
    wrapInt64 ((l.map (fun k => wrapInt64 (f k))).sum) = wrapInt64 ((l.map f).sum) := by
  induction l with
  | nil => rfl
  | cons a t ih =>
    simp only [List.map_cons, List.sum_cons]
    rw [wrapInt64_add_wrap]
    exact wrapInt64_congr_add _ _ _ ih

theorem sum_map_ite_of_nodup (K : List String) (k0 : String) (c : Int) (hK : K.Nodup)
    (hk : k0 ∈ K) : (K.map (fun k => if k0 = k then c else 0)).sum = c := by
  induction K with
  | nil => simp at hk
  | cons a t ih =>
    simp only [List.nodup_cons] at hK
    simp only [List.map_cons, List.sum_cons]
    by_cases h : k0 = a
    · subst h
      have hz : (t.map (fun k => if k0 = k then c else 0)).sum = 0 := by
        apply List.sum_eq_zero
        intro x hx
        simp only [List.mem_map] at hx
        obtain ⟨k, hkt, rfl⟩ := hx
        have : k0 ≠ k := fun e => hK.1 (e ▸ hkt)
        simp [this]
      simp [hz]
    · have hk' : k0 ∈ t := by
        rcases List.mem_cons.1 hk with e | e
        · exact absurd e h
        · exact e
      simp [h, ih hK.2 hk']

theorem rowsAt_cons (New : String → UserAgent) (s : bstat) (rest : List bstat) (k : String) :
    rowsAt New (s :: rest) k =
      if kept New s = true ∧ rowKey New s = k then s :: rowsAt New rest k
      else rowsAt New rest k := by
  unfold rowsAt
  by_cases h1 : kept New s = true
  · by_cases h2 : rowKey New s = k
    · simp [List.filter_cons, h1, h2]
    · simp [List.filter_cons, h1, h2]
  · simp [List.filter_cons, h1]

theorem sum_rowsAt_over_keys (New : String → UserAgent) (K : List String) (hK : K.Nodup)
    (stats : List bstat) (hall : ∀ s ∈ stats, kept New s = true → rowKey New s ∈ K) :
    (K.map (fun k => sumCounts (rowsAt New stats k))).sum =
      sumCounts (stats.filter (kept New)) := by
  induction stats with
  | nil =>
    simp only [rowsAt, List.filter_nil, sumCounts, List.map_nil, List.sum_nil]
    apply List.sum_eq_zero
    intro x hx
    simp only [List.mem_map] at hx
    obtain ⟨_, _, rfl⟩ := hx
    rfl
  | cons s rest ih =>
    have ih' := ih (fun x hx => hall x (List.mem_cons_of_mem _ hx))
    by_cases hk : kept New s = true
    · have hin : rowKey New s ∈ K := hall s (List.mem_cons_self _ _) hk
      have e : ∀ k, sumCounts (rowsAt New (s :: rest) k) =
          (if rowKey New s = k then s.Count else 0) + sumCounts (rowsAt New rest k) := by
        intro k
        rw [rowsAt_cons]
        by_cases h2 : rowKey New s = k
        · simp [hk, h2, sumCounts_cons]
        · simp [hk, h2]
      simp only [e, List.sum_map_add, ih', sum_map_ite_of_nodup K _ _ hK hin]
      rw [List.filter_cons_of_pos (by simpa using hk), sumCounts_cons]
    · have e : ∀ k, sumCounts (rowsAt New (s :: rest) k) = sumCounts (rowsAt New rest k) := by
        intro k
        rw [rowsAt_cons]
        simp [hk]
      simp only [e, ih']
      rw [List.filter_cons_of_neg (by simpa using hk)]

theorem sumGroups_eq (New : String → UserAgent) (stats : List bstat) :
    sumGroups (groups New stats) =
      (((groupStats New stats).map Prod.fst).map
        (fun k => wrapInt64 (sumCounts (rowsAt New stats k)))).sum := by
  unfold sumGroups groups
  rw [List.map_map, List.map_map]
  congr 1
  apply List.map_congr_left
  rintro ⟨k, g⟩ hm
  exact (groupStats_entry New stats k g hm).2

/-- The sum of the counts of the groups and the sum of the counts of the
kept raw rows are congruent modulo 2^64; they are equal whenever the sum of
the counts of the rows of each group is within the bounds of `int`. -/
theorem groups_conserve_total (New : String → UserAgent) (stats : List bstat) :
    wrapInt64 (sumGroups (groups New stats)) =
      wrapInt64 (sumCounts (stats.filter (kept New))) ∧
    ((∀ g ∈ groups New stats,
        inInt64 (sumCounts (rowsAt New stats (groupKey g.day g.browser g.version)))) →
      sumGroups (groups New stats) = sumCounts (stats.filter (kept New))) := by
  have htotal := sum_rowsAt_over_keys New ((groupStats New stats).map Prod.fst)
    (groupStats_nodup New stats) stats
    (fun s hs hk => (groupStats_keys New stats _).2 ⟨s, hs, hk, rfl⟩)
  constructor
  · rw [sumGroups_eq, wrapInt64_sum_map, htotal]
  · intro hfit
    rw [sumGroups_eq, ← htotal]
    congr 1
    apply List.map_congr_left
    intro k hk
    simp only [List.mem_map] at hk
    obtain ⟨⟨k', g⟩, hm, rfl⟩ := hk
    have hkey := groupStats_entry_key New stats k' g hm
    have := hfit g ((groups_mem New stats g).2 ⟨k', hm⟩)
    rw [← hkey] at this
    exact wrapInt64_of_inInt64 _ this

/-! ## The mobile flag of a group -/

theorem sumCounts_rowsAt_nonneg (New : String → UserAgent) (k : String) (stats : List bstat)
    (hpos : ∀ s ∈ stats, kept New s = true → 0 < s.Count) :
    0 ≤ sumCounts (rowsAt New stats k) := by
  unfold sumCounts
  apply List.sum_nonneg
  intro x hx
  simp only [List.mem_map] at hx
  obtain ⟨s, hs, rfl⟩ := hx
  unfold rowsAt at hs
  rw [List.mem_filter] at hs
  have hk : kept New s = true := by
    have := hs.2
    simp only [Bool.and_eq_true] at this
    exact this.1
  exact le_of_lt (hpos s hs.1 hk)

theorem sumCounts_rowsAt_le (New : String → UserAgent) (k : String) (stats : List bstat)
    (hpos : ∀ s ∈ stats, kept New s = true → 0 < s.Count) :
    sumCounts (rowsAt New stats k) ≤ sumCounts (stats.filter (kept New)) := by
  induction stats with
  | nil => simp [rowsAt]
  | cons s rest ih =>
    have ih' := ih (fun x hx => hpos x (List.mem_cons_of_mem _ hx))
    rw [rowsAt_cons]
    by_cases hk : kept New s = true
    · have hc := hpos s (List.mem_cons_self _ _) hk
      rw [List.filter_cons_of_pos (by simpa using hk), sumCounts_cons]
      by_cases h2 : rowKey New s = k
      · simp only [hk, h2, and_self, if_true, sumCounts_cons]
        omega
      · simp only [hk, h2, and_false, if_false]
        omega
    · rw [List.filter_cons_of_neg (by simpa using hk)]
      simp only [hk, false_and, if_false]
      exact ih'

theorem foldl_stepAt_keeps (New : String → UserAgent) (k : String) (stats : List bstat) (v : gt)
    (hv : 0 < v.count)
    (hpos : ∀ s ∈ stats, kept New s = true → 0 < s.Count)
    (hfit : v.count + sumCounts (rowsAt New stats k) < 2 ^ 63) :
    (stats.foldl (stepAt New k) v).mobile = v.mobile ∧
    recorded (stats.foldl (stepAt New k) v) = recorded v := by
  induction stats generalizing v with
  | nil => exact ⟨rfl, rfl⟩
  | cons s rest ih =>
    have hpos' : ∀ x ∈ rest, kept New x = true → 0 < x.Count :=
      fun x hx => hpos x (List.mem_cons_of_mem _ hx)
    have hnn := sumCounts_rowsAt_nonneg New k rest hpos'
    simp only [List.foldl_cons]
    rw [rowsAt_cons] at hfit
    by_cases hm : kept New s = true ∧ rowKey New s = k
    · rw [if_pos hm, sumCounts_cons] at hfit
      have hc := hpos s (List.mem_cons_self _ _) hm.1
      have hne : v.count ≠ 0 := ne_of_gt hv
      have hcount : (stepAt New k v s).count = v.count + s.Count := by
        simp only [stepAt, if_pos hm, accumulate_count]
        apply wrapInt64_of_inInt64
        unfold inInt64
        constructor <;> omega
      have hsame : (stepAt New k v s).mobile = v.mobile ∧
          recorded (stepAt New k v s) = recorded v := by
        simp only [stepAt, if_pos hm, accumulate, if_neg hne, recorded]
        exact ⟨trivial, trivial⟩
      have := ih (stepAt New k v s) (by rw [hcount]; omega) hpos' (by rw [hcount]; omega)
      exact ⟨this.1.trans hsame.1, this.2.trans hsame.2⟩
    · rw [if_neg hm] at hfit
      have hs : stepAt New k v s = v := by simp only [stepAt, if_neg hm]
      rw [hs]
      exact ih v hv hpos' hfit

theorem foldl_stepAt_first (New : String → UserAgent) (k : String) (stats : List bstat)
    (hpos : ∀ s ∈ stats, kept New s = true → 0 < s.Count)
    (hfit : sumCounts (rowsAt New stats k) < 2 ^ 63)
    (s0 : bstat) (h0 : (rowsAt New stats k).head? = some s0) :
    (stats.foldl (stepAt New k) gt.zero).mobile = (getBrowser New s0.Browser).2.2 ∧
    recorded (stats.foldl (stepAt New k) gt.zero) = rowTriple New s0 := by
  induction stats with
  | nil => simp [rowsAt] at h0
  | cons s rest ih =>
    have hpos' : ∀ x ∈ rest, kept New x = true → 0 < x.Count :=
      fun x hx => hpos x (List.mem_cons_of_mem _ hx)
    have hnn := sumCounts_rowsAt_nonneg New k rest hpos'
    simp only [List.foldl_cons]
    rw [rowsAt_cons] at hfit h0
    by_cases hm : kept New s = true ∧ rowKey New s = k
    · rw [if_pos hm] at hfit h0
      rw [sumCounts_cons] at hfit
      simp only [List.head?_cons, Option.some.injEq] at h0
      subst h0
      have hc := hpos s (List.mem_cons_self _ _) hm.1
      have hcount : (stepAt New k gt.zero s).count = s.Count := by
        simp only [stepAt, if_pos hm, accumulate_count, gt.zero, zero_add]
        apply wrapInt64_of_inInt64
        unfold inInt64
        constructor <;> omega
      have hrec : (stepAt New k gt.zero s).mobile = (getBrowser New s.Browser).2.2 ∧
          recorded (stepAt New k gt.zero s) = rowTriple New s := by
        simp only [stepAt, if_pos hm, accumulate, gt.zero, if_true, recorded, rowTriple]
        exact ⟨trivial, trivial⟩
      have := foldl_stepAt_keeps New k rest (stepAt New k gt.zero s) (by rw [hcount]; exact hc)
        hpos' (by rw [hcount]; exact hfit)
      exact ⟨this.1.trans hrec.1, this.2.trans hrec.2⟩
    · rw [if_neg hm] at hfit h0
      have hs : stepAt New k gt.zero s = gt.zero := by simp only [stepAt, if_neg hm]
      rw [hs]
      exact ih hpos' hfit h0

theorem groupStep_mobile (New : String → UserAgent) (m : GroupMap) (s : bstat)
    (hk : kept New s = true) :
    (mapGet (groupStep New m s) (rowKey New s)).mobile =
      if (mapGet m (rowKey New s)).count = 0 then (getBrowser New s.Browser).2.2
      else (mapGet m (rowKey New s)).mobile := by
  rw [mapGet_groupStep]
  simp only [stepAt, hk, true_and, if_true, accumulate]
  split_ifs <;> rfl

/-- A kept row sets the mobile flag of its group when the group's running
count is 0 and leaves it as it is otherwise; when every kept raw row has a
positive count and the kept counts sum to less than 2^63, the flag and the
recorded (day, browser, version) of each group are those of the first raw
row under the group's key. -/
theorem group_mobile_first_row (New : String → UserAgent) (stats : List bstat) :
    (∀ (m : GroupMap) (s : bstat), kept New s = true →
      (mapGet (groupStep New m s) (rowKey New s)).mobile =
        if (mapGet m (rowKey New s)).count = 0 then (getBrowser New s.Browser).2.2
        else (mapGet m (rowKey New s)).mobile) ∧
    ((∀ s ∈ stats, kept New s = true → 0 < s.Count) →
      sumCounts (stats.filter (kept New)) < 2 ^ 63 →
      ∀ g ∈ groups New stats, ∃ s0,
        (rowsAt New stats (groupKey g.day g.browser g.version)).head? = some s0 ∧
        g.mobile = (getBrowser New s0.Browser).2.2 ∧ recorded g = rowTriple New s0) := by
  refine ⟨groupStep_mobile New, ?_⟩
  intro hpos hfit g hg
  obtain ⟨k, hk⟩ := (groups_mem New stats g).1 hg
  have hkey := groupStats_entry_key New stats k g hk
  have hget : mapGet (groupStats New stats) k = g :=
    mapGet_of_mem _ k g (groupStats_nodup New stats) hk
  rw [groupStats_get] at hget
  have hex : ∃ s ∈ stats, kept New s = true ∧ rowKey New s = k :=
    (groupStats_keys New stats k).1 (List.mem_map_of_mem Prod.fst hk)
  have hne : rowsAt New stats k ≠ [] := by
    obtain ⟨s, hs, h1, h2⟩ := hex
    intro e
    have : s ∈ rowsAt New stats k := by
      unfold rowsAt
      rw [List.mem_filter]
      exact ⟨hs, by simp [h1, h2]⟩
    rw [e] at this
    exact absurd this (List.not_mem_nil _)
  cases hrows : rowsAt New stats k with
  | nil => exact absurd hrows hne
  | cons s0 tl =>
    have hle := sumCounts_rowsAt_le New k stats hpos
    have := foldl_stepAt_first New k stats hpos (lt_of_le_of_lt hle hfit) s0
      (by rw [hrows]; rfl)
    rw [hget] at this
    refine ⟨s0, ?_, this.1, this.2⟩
    rw [← hkey, hrows]
    rfl

/-! ## The two query formulations -/

theorem strftimeHour_length (t : Time) (hp : t.plain) : (strftimeHour t).data.length = 13 := by
  obtain ⟨h1, h2, h3, h4, h5, -, -⟩ := hp
  have hd := formatDay_length t h1 h2 (by omega) (by omega)
  have hh := (appendInt_shape (t.Hour : Int) 2 (by decide) (by omega)
    (by simp only [Int.natAbs_ofNat]; omega)).1
  unfold strftimeHour
  simp only [String.data_append, List.length_append, hd, hh]
  rfl

theorem text_eq_hour_append (t : Time) :
    t.Text.data = (strftimeHour t).data ++
      (":" ++ appendInt t.Minute 2 ++ ":" ++ appendInt t.Second 2).data := by
  unfold Time.Text strftimeHour
  simp only [String.data_append, List.append_assoc]

theorem substr_text (t : Time) (hp : t.plain) :
    substrFromZero t.Text 14 = strftimeHour t := by
  apply String.ext
  unfold substrFromZero
  show t.Text.data.take 13 = _
  rw [text_eq_hour_append, List.take_append_of_le_length (by rw [strftimeHour_length t hp]),
    List.take_of_length_le (by rw [strftimeHour_length t hp])]

theorem substr_hour_bucket (t : Time) (hp : t.plain) :
    substrFromZero (strftimeHour t ++ ":00:00") 14 = strftimeHour t := by
  apply String.ext
  unfold substrFromZero
  show (strftimeHour t ++ ":00:00").data.take 13 = _
  rw [String.data_append, List.take_append_of_le_length (by rw [strftimeHour_length t hp]),
    List.take_of_length_le (by rw [strftimeHour_length t hp])]

theorem text_on_the_hour (t : Time) (hm : t.Minute = 0) (hs : t.Second = 0) :
    t.Text = strftimeHour t ++ ":00:00" := by
  apply String.ext
  rw [text_eq_hour_append, hm, hs, String.data_append]
  rfl

theorem groupRows_congr (key key' : Hit → String × String) (hits : List Hit)
    (h : ∀ x ∈ hits, key x = key' x) : groupRows key hits = groupRows key' hits := by
  unfold groupRows
  rw [List.map_congr_left h]
  apply List.map_congr_left
  intro k _
  apply List.filter_congr
  intro x hx
  rw [h x hx]

theorem groupRows_mem (key : Hit → String × String) (hits : List Hit) (g : List Hit)
    (hg : g ∈ groupRows key hits) :
    ∃ k, ∀ x ∈ g, x ∈ hits ∧ key x = k := by
  unfold groupRows at hg
  simp only [List.mem_map] at hg
  obtain ⟨k, -, rfl⟩ := hg
  refine ⟨k, ?_⟩
  intro x hx
  rw [List.mem_filter] at hx
  exact ⟨hx.1, by simpa using hx.2⟩

theorem getD_mem (g : List Hit) (i : Nat) (d : Hit) (hd : d ∈ g) : g.getD i d ∈ g := by
  induction g generalizing i with
  | nil => exact absurd hd (List.not_mem_nil _)
  | cons a t ih =>
    cases i with
    | zero => simp
    | succ n =>
      rw [List.getD_cons_succ]
      by_cases hn : n < t.length
      · rw [List.getD_eq_getElem _ _ hn]
        exact List.mem_cons_of_mem _ (List.getElem_mem _)
      · rw [List.getD_eq_default _ _ (not_lt.1 hn)]
        exact hd

theorem hourBucket_rows_agree (pick : List Hit → Nat) (hits : List Hit) (g : List Hit)
    (hplain : ∀ h ∈ hits, h.created_at.plain)
    (hg : g ∈ groupRows (fun h => (h.browser, strftimeHour h.created_at)) hits) :
    (pgRow g).map hourBucketRow = (sqliteRow pick g).map hourBucketRow := by
  obtain ⟨k, hk⟩ := groupRows_mem _ hits g hg
  cases g with
  | nil => rfl
  | cons h t =>
    have hh := hk h (List.mem_cons_self _ _)
    have hp := hk _ (getD_mem (h :: t) (pick (h :: t) % (h :: t).length) h
      (List.mem_cons_self _ _))
    have e := hp.2.trans hh.2.symm
    simp only [Prod.mk.injEq] at e
    simp only [pgRow, sqliteRow, Option.map_some', hourBucketRow, Option.some.injEq,
      Prod.mk.injEq]
    refine ⟨e.1.symm, trivial, ?_⟩
    rw [substr_text _ (hplain _ hh.1), substr_hour_bucket _ (hplain _ hh.1),
      substr_text _ (hplain _ hp.1), e.2]

theorem rows_agree_on_the_hour (pick : List Hit → Nat) (hits : List Hit) (g : List Hit)
    (hplain : ∀ h ∈ hits, h.created_at.plain)
    (hzero : ∀ h ∈ hits, h.created_at.Minute = 0 ∧ h.created_at.Second = 0)
    (hg : g ∈ groupRows (fun h => (h.browser, strftimeHour h.created_at)) hits) :
    pgRow g = sqliteRow pick g := by
  obtain ⟨k, hk⟩ := groupRows_mem _ hits g hg
  cases g with
  | nil => rfl
  | cons h t =>
    have hh := hk h (List.mem_cons_self _ _)
    have hp := hk _ (getD_mem (h :: t) (pick (h :: t) % (h :: t).length) h
      (List.mem_cons_self _ _))
    have e := hp.2.trans hh.2.symm
    simp only [Prod.mk.injEq] at e
    simp only [pgRow, sqliteRow, Option.some.injEq, QueryRow.mk.injEq]
    refine ⟨e.1.symm, trivial, ?_⟩
    rw [substr_text _ (hplain _ hh.1),
      text_on_the_hour _ (hzero _ hp.1).1 (hzero _ hp.1).2, e.2]

theorem orderByCountDesc_perm (rows : List QueryRow) : (orderByCountDesc rows).Perm rows :=
  List.perm_insertionSort _ rows

/-- C13 (as amended): for the same rows of `hits`, tenant and watermark, with
timestamps of the years 0000 to 9999, both queries form the same groups
(browser, hour) with the same counts, and their result rows agree once the
returned timestamp is cut to its hour bucket "YYYY-MM-DD HH": the PostgreSQL
query returns the hour itself ("...:00:00"), the SQLite query the
`created_at` of one row of the group.  The result rows themselves are the
same multiset when every selected hit lies on the full hour. -/
theorem queries_same_hour_buckets (pick : List Hit → Nat) (hits : List Hit) (siteID : Int)
    (last : String)
    (hplain : ∀ h ∈ hits, hitSelected siteID last h = true → h.created_at.plain) :
    ((queryPgSQL hits siteID last).map hourBucketRow).Perm
      ((querySQLite pick hits siteID last).map hourBucketRow) ∧
    ((∀ h ∈ hits, hitSelected siteID last h = true →
        h.created_at.Minute = 0 ∧ h.created_at.Second = 0) →
      (queryPgSQL hits siteID last).Perm (querySQLite pick hits siteID last)) := by
  have hsel : ∀ h ∈ hits.filter (hitSelected siteID last), h.created_at.plain := by
    intro h hh
    rw [List.mem_filter] at hh
    exact hplain h hh.1 hh.2
  have hgroups : groupRows (fun h => (h.browser, substrFromZero h.created_at.Text 14))
      (hits.filter (hitSelected siteID last)) =
      groupRows (fun h => (h.browser, strftimeHour h.created_at))
        (hits.filter (hitSelected siteID last)) :=
    groupRows_congr _ _ _ (fun x hx => by rw [substr_text _ (hsel x hx)])
  unfold queryPgSQL querySQLite
  rw [hgroups]
  constructor
  · refine ((orderByCountDesc_perm _).map _).trans (List.Perm.trans ?_
      ((orderByCountDesc_perm _).map _).symm)
    rw [List.map_filterMap, List.map_filterMap]
    apply List.Perm.of_eq
    apply List.filterMap_congr
    intro g hg
    exact hourBucket_rows_agree pick _ g hsel hg
  · intro hzero
    have hz : ∀ h ∈ hits.filter (hitSelected siteID last),
        h.created_at.Minute = 0 ∧ h.created_at.Second = 0 := by
      intro h hh
      rw [List.mem_filter] at hh
      exact hzero h hh.1 hh.2
    apply List.Perm.of_eq
    congr 1
    apply List.filterMap_congr
    intro g hg
    exact rows_agree_on_the_hour pick _ g hsel hz hg

/-- C13, at three hits of one user agent, two of them in the same hour: both
queries count 2 in the hour from 10:00 and 1 in the hour from 11:00. -/
theorem queries_same_hour_buckets_witness :
    (queryPgSQL threeHits 1 "2020-01-05").map hourBucketRow =
      [("UA_A", 2, "2020-01-05 10"), ("UA_A", 1, "2020-01-05 11")] ∧
    ((queryPgSQL threeHits 1 "2020-01-05").map hourBucketRow).Perm
      ((querySQLite (fun _ => 0) threeHits 1 "2020-01-05").map hourBucketRow) :=
  ⟨by decide, (queries_same_hour_buckets (fun _ => 0) threeHits 1 "2020-01-05" (by decide)).1⟩

/-- C13 as stated fails: for one hit at 10:37 the PostgreSQL query returns
the timestamp 10:00:00 and the SQLite query, whichever row it picks, the
timestamp 10:37:00 of the hit. -/
theorem queries_same_hour_buckets_counterexample :
    queryPgSQL oneHit 1 "2020-01-05" =
      [{ browser := "UA_A", count := 1, created_at := "2020-01-05 10:00:00" }] ∧
    (∀ pick : List Hit → Nat, querySQLite pick oneHit 1 "2020-01-05" =
      [{ browser := "UA_A", count := 1, created_at := "2020-01-05 10:37:00" }]) := by
  refine ⟨by decide, ?_⟩
  intro pick
  have e : querySQLite pick oneHit 1 "2020-01-05" =
      querySQLite (fun _ => 0) oneHit 1 "2020-01-05" := by
    unfold querySQLite
    congr 1
    apply List.filterMap_congr
    intro g hg
    obtain ⟨k, hk⟩ := groupRows_mem _ _ g hg
    cases g with
    | nil => rfl
    | cons h t =>
      have h2 := (hk _ (getD_mem (h :: t) (pick (h :: t) % (h :: t).length) h
        (List.mem_cons_self _ _))).1
      have h3 := (hk _ (getD_mem (h :: t) (0 % (h :: t).length) h (List.mem_cons_self _ _))).1
      have hone : ∀ x ∈ oneHit.filter (hitSelected 1 "2020-01-05"),
          x = { site := 1, browser := "UA_A", created_at := day1minute37 } := by decide
      simp only [sqliteRow]
      rw [hone _ h2, hone _ h3]
  rw [e]
  decide

/-! ## The rows the query returns -/

theorem sum_ite_of_nodup {κ : Type} [DecidableEq κ] (K : List κ) (k0 : κ) (c : Int)
    (hK : K.Nodup) (hk : k0 ∈ K) : (K.map (fun k => if k0 = k then c else 0)).sum = c := by
  induction K with
  | nil => simp at hk
  | cons a t ih =>
    simp only [List.nodup_cons] at hK
    simp only [List.map_cons, List.sum_cons]
    by_cases h : k0 = a
    · subst h
      have hz : (t.map (fun k => if k0 = k then c else 0)).sum = 0 := by
        apply List.sum_eq_zero
        intro x hx
        simp only [List.mem_map] at hx
        obtain ⟨k, hkt, rfl⟩ := hx
        have : k0 ≠ k := fun e => hK.1 (e ▸ hkt)
        simp [this]
      simp [hz]
    · have hk' : k0 ∈ t := by
        rcases List.mem_cons.1 hk with e | e
        · exact absurd e h
        · exact e
      simp [h, ih hK.2 hk']

theorem sum_group_sizes (key : Hit → String × String) (K : List (String × String))
    (hK : K.Nodup) (hits : List Hit) (hall : ∀ x ∈ hits, key x ∈ K) :
    (K.map (fun k => ((hits.filter (fun h => decide (key h = k))).length : Int))).sum =
      (hits.length : Int) := by
  induction hits with
  | nil =>
    simp only [List.filter_nil, List.length_nil, Nat.cast_zero]
    apply List.sum_eq_zero
    intro x hx
    simp only [List.mem_map] at hx
    obtain ⟨_, _, rfl⟩ := hx
    rfl
  | cons a t ih =>
    have ih' := ih (fun x hx => hall x (List.mem_cons_of_mem _ hx))
    have e : ∀ k, (((a :: t).filter (fun h => decide (key h = k))).length : Int) =
        (if key a = k then 1 else 0) + ((t.filter (fun h => decide (key h = k))).length : Int) := by
      intro k
      by_cases h : key a = k
      · simp [List.filter_cons, h]
        ring
      · simp [List.filter_cons, h]
    simp only [e, List.sum_map_add, ih',
      sum_ite_of_nodup K (key a) 1 hK (hall a (List.mem_cons_self _ _))]
    simp
    ring

theorem groupRows_sizes (key : Hit → String × String) (hits : List Hit) :
    ((groupRows key hits).map (fun g => (g.length : Int))).sum = (hits.length : Int) := by
  unfold groupRows
  rw [List.map_map]
  exact sum_group_sizes key _ (List.nodup_dedup _) hits
    (fun x hx => List.mem_dedup.2 (List.mem_map_of_mem key hx))

theorem pgRow_count (g : List Hit) (r : QueryRow) (h : pgRow g = some r) :
    r.count = g.length ∧ 1 ≤ r.count := by
  cases g with
  | nil => simp [pgRow] at h
  | cons a t =>
    simp only [pgRow, Option.some.injEq] at h
    subst h
    simp only [List.length_cons, Nat.cast_add, Nat.cast_one, true_and]
    omega

theorem sqliteRow_count (pick : List Hit → Nat) (g : List Hit) (r : QueryRow)
    (h : sqliteRow pick g = some r) : r.count = g.length ∧ 1 ≤ r.count := by
  cases g with
  | nil => simp [sqliteRow] at h
  | cons a t =>
    simp only [sqliteRow, Option.some.injEq] at h
    subst h
    simp only [List.length_cons, Nat.cast_add, Nat.cast_one, true_and]
    omega

theorem filterMap_counts (f : List Hit → Option QueryRow) (B : List (List Hit))
    (hf : ∀ g r, f g = some r → r.count = g.length)
    (hnone : ∀ g, f g = none → g = []) :
    ((B.filterMap f).map QueryRow.count).sum = (B.map (fun g => (g.length : Int))).sum := by
  induction B with
  | nil => rfl
  | cons g t ih =>
    cases hg : f g with
    | none =>
      rw [List.filterMap_cons_none hg, ih, List.map_cons, List.sum_cons, hnone g hg]
      simp
    | some r =>
      rw [List.filterMap_cons_some hg, List.map_cons, List.sum_cons, ih, List.map_cons,
        List.sum_cons, hf g r hg]

theorem pgRow_none (g : List Hit) (h : pgRow g = none) : g = [] := by
  cases g with
  | nil => rfl
  | cons a t => simp [pgRow] at h

theorem sqliteRow_none (pick : List Hit → Nat) (g : List Hit) (h : sqliteRow pick g = none) :
    g = [] := by
  cases g with
  | nil => rfl
  | cons a t => simp [sqliteRow] at h

/-- Every result row of either query has a count of at least 1, and the
counts of the result rows add up to the number of selected hits. -/
theorem query_counts (pick : List Hit → Nat) (hits : List Hit) (siteID : Int) (last : String) :
    (∀ r ∈ queryPgSQL hits siteID last, 1 ≤ r.count) ∧
    ((queryPgSQL hits siteID last).map QueryRow.count).sum =
      ((hits.filter (hitSelected siteID last)).length : Int) ∧
    (∀ r ∈ querySQLite pick hits siteID last, 1 ≤ r.count) ∧
    ((querySQLite pick hits siteID last).map QueryRow.count).sum =
      ((hits.filter (hitSelected siteID last)).length : Int) := by
  unfold queryPgSQL querySQLite
  refine ⟨?_, ?_, ?_, ?_⟩
  · intro r hr
    have hr' := (orderByCountDesc_perm _).mem_iff.1 hr
    rw [List.mem_filterMap] at hr'
    obtain ⟨g, -, hg⟩ := hr'
    exact (pgRow_count g r hg).2
  · rw [((orderByCountDesc_perm _).map QueryRow.count).sum_eq,
      filterMap_counts pgRow _ (fun g r h => (pgRow_count g r h).1) pgRow_none,
      groupRows_sizes]
  · intro r hr
    have hr' := (orderByCountDesc_perm _).mem_iff.1 hr
    rw [List.mem_filterMap] at hr'
    obtain ⟨g, -, hg⟩ := hr'
    exact (sqliteRow_count pick g r hg).2
  · rw [((orderByCountDesc_perm _).map QueryRow.count).sum_eq,
      filterMap_counts (sqliteRow pick) _ (fun g r h => (sqliteRow_count pick g r h).1)
        (sqliteRow_none pick),
      groupRows_sizes]

/-- Raw rows that carry the counts of the result rows of either query over a
table of fewer than 2^63 hits are receivable. -/
theorem receivable_of_query (pick : List Hit → Nat) (hits : List Hit) (siteID : Int)
    (last : String) (stats : List bstat) (hlen : (hits.length : Int) < 2 ^ 63)
    (hscan : stats.map bstat.Count = (queryPgSQL hits siteID last).map QueryRow.count ∨
      stats.map bstat.Count = (querySQLite pick hits siteID last).map QueryRow.count) :
    Receivable stats := by
  obtain ⟨h1, h2, h3, h4⟩ := query_counts pick hits siteID last
  have hsel : ((hits.filter (hitSelected siteID last)).length : Int) ≤ hits.length := by
    exact_mod_cast List.length_filter_le _ _
  unfold Receivable sumCounts
  rcases hscan with e | e
  · rw [e, h2]
    refine ⟨?_, by omega⟩
    intro s hs
    have : s.Count ∈ (queryPgSQL hits siteID last).map QueryRow.count := by
      rw [← e]
      exact List.mem_map_of_mem _ hs
    obtain ⟨r, hr, hrc⟩ := List.mem_map.1 this
    rw [← hrc]
    exact h1 r hr
  · rw [e, h4]
    refine ⟨?_, by omega⟩
    intro s hs
    have : s.Count ∈ (querySQLite pick hits siteID last).map QueryRow.count := by
      rw [← e]
      exact List.mem_map_of_mem _ hs
    obtain ⟨r, hr, hrc⟩ := List.mem_map.1 this
    rw [← hrc]
    exact h3 r hr

theorem receivable_kept (New : String → UserAgent) (stats : List bstat) (h : Receivable stats) :
    (∀ s ∈ stats, kept New s = true → 0 < s.Count) ∧
      sumCounts (stats.filter (kept New)) < 2 ^ 63 := by
  obtain ⟨h1, h2⟩ := h
  refine ⟨fun s hs _ => by have := h1 s hs; omega, ?_⟩
  have hle : sumCounts (stats.filter (kept New)) ≤ sumCounts stats := by
    clear h2
    induction stats with
    | nil => simp
    | cons a t ih =>
      have ih' := ih (fun s hs => h1 s (List.mem_cons_of_mem _ hs))
      have ha := h1 a (List.mem_cons_self _ _)
      by_cases hk : kept New a = true
      · rw [List.filter_cons_of_pos (by simpa using hk), sumCounts_cons, sumCounts_cons]
        omega
      · rw [List.filter_cons_of_neg (by simpa using hk), sumCounts_cons]
        omega
  omega

theorem receivable_prefix (pre suf : List bstat) (h : Receivable (pre ++ suf)) :
    Receivable pre := by
  obtain ⟨h1, h2⟩ := h
  refine ⟨fun s hs => h1 s (List.mem_append_left _ hs), ?_⟩
  have hnn : 0 ≤ sumCounts suf := by
    unfold sumCounts
    apply List.sum_nonneg
    intro x hx
    obtain ⟨s, hs, rfl⟩ := List.mem_map.1 hx
    have := h1 s (List.mem_append_right _ hs)
    omega
  have e : sumCounts (pre ++ suf) = sumCounts pre + sumCounts suf := by
    simp [sumCounts]
  omega


/-! ## Receivable rows: the mobile flag and the total -/

theorem rowsAt_append (New : String → UserAgent) (pre suf : List bstat) (k : String) :
    rowsAt New (pre ++ suf) k = rowsAt New pre k ++ rowsAt New suf k := by
  unfold rowsAt
  rw [List.filter_append]

theorem mobile_at_key (New : String → UserAgent) (stats : List bstat) (hrecv : Receivable stats)
    (k : String) (hk : k ∈ (groupStats New stats).map Prod.fst) :
    ∃ s0, (rowsAt New stats k).head? = some s0 ∧
      (mapGet (groupStats New stats) k).mobile = (getBrowser New s0.Browser).2.2 ∧
      recorded (mapGet (groupStats New stats) k) = rowTriple New s0 := by
  have hmem := mem_of_key_mem _ k hk
  have hkey := groupStats_entry_key New stats k _ hmem
  obtain ⟨hpos, hfit⟩ := receivable_kept New stats hrecv
  obtain ⟨s0, h1, h2, h3⟩ := (group_mobile_first_row New stats).2 hpos hfit _
    ((groups_mem New stats _).2 ⟨k, hmem⟩)
  rw [← hkey] at h1
  exact ⟨s0, h1, h2, h3⟩

/-- C14: for raw rows as the query returns them (every count at least 1, the
counts adding up to less than 2^63), the mobile flag of each group the loop
produces is the flag `getBrowser` returns for the first raw row, in input
order, that falls under the group's key; the group has that flag from the
moment its first row is read, whatever rows follow.  The loop sets the flag
of a kept row's group when the group's running count is 0 and leaves it as
it is otherwise. -/
theorem group_mobile_of_first_row (New : String → UserAgent) (stats : List bstat)
    (hrecv : Receivable stats) :
    (∀ g ∈ groups New stats, ∃ s0,
      (rowsAt New stats (groupKey g.day g.browser g.version)).head? = some s0 ∧
      g.mobile = (getBrowser New s0.Browser).2.2) ∧
    (∀ pre suf : List bstat, stats = pre ++ suf →
      ∀ k ∈ (groupStats New pre).map Prod.fst,
        (mapGet (groupStats New stats) k).mobile = (mapGet (groupStats New pre) k).mobile) ∧
    (∀ (m : GroupMap) (s : bstat), kept New s = true →
      (mapGet (groupStep New m s) (rowKey New s)).mobile =
        if (mapGet m (rowKey New s)).count = 0 then (getBrowser New s.Browser).2.2
        else (mapGet m (rowKey New s)).mobile) := by
  refine ⟨?_, ?_, groupStep_mobile New⟩
  · intro g hg
    obtain ⟨k, hk⟩ := (groups_mem New stats g).1 hg
    have hkey := groupStats_entry_key New stats k g hk
    have hget := mapGet_of_mem _ k g (groupStats_nodup New stats) hk
    obtain ⟨s0, h1, h2, -⟩ := mobile_at_key New stats hrecv k (List.mem_map_of_mem Prod.fst hk)
    rw [hget] at h2
    rw [hkey] at h1
    exact ⟨s0, h1, h2⟩
  · intro pre suf hsplit k hk
    subst hsplit
    have hpre := receivable_prefix pre suf hrecv
    obtain ⟨s0, h1, h2, -⟩ := mobile_at_key New pre hpre k hk
    have hk' : k ∈ (groupStats New (pre ++ suf)).map Prod.fst := by
      rw [groupStats_keys] at hk ⊢
      obtain ⟨s, hs, hs'⟩ := hk
      exact ⟨s, List.mem_append_left _ hs, hs'⟩
    obtain ⟨s1, g1, g2, -⟩ := mobile_at_key New (pre ++ suf) hrecv k hk'
    rw [rowsAt_append] at g1
    cases hrows : rowsAt New pre k with
    | nil => rw [hrows] at h1; exact absurd h1 (by simp)
    | cons a t =>
      rw [hrows] at h1 g1
      simp only [List.cons_append, List.head?_cons, Option.some.injEq] at h1 g1
      rw [g2, h2, ← g1, ← h1]

/-- C14, at a desktop row with count 3 before a phone row of the same group:
the group is not mobile, after the first row and after both. -/
theorem group_mobile_of_first_row_witness :
    Receivable deskFirstRows ∧
    groups phoneParser deskFirstRows =
      [{ count := 8, mobile := false, day := "2020-01-05", browser := "Chrome",
         version := "96" }] ∧
    (getBrowser phoneParser "UA_desk").2.2 = false ∧
    (∃ s0, (rowsAt phoneParser deskFirstRows (groupKey "2020-01-05" "Chrome" "96")).head? =
        some s0 ∧ false = (getBrowser phoneParser s0.Browser).2.2) :=
  ⟨by decide, by decide, by decide,
    (group_mobile_of_first_row phoneParser deskFirstRows (by decide)).1
      { count := 8, mobile := false, day := "2020-01-05", browser := "Chrome", version := "96" }
      (by decide)⟩

/-- C19: for raw rows as the query returns them (every count at least 1, the
counts adding up to less than 2^63), the sum of the counts of all output
groups equals the sum of the counts of all raw rows whose user agent
classifies to a non-empty family. -/
theorem groups_total_conserved (New : String → UserAgent) (stats : List bstat)
    (hrecv : Receivable stats) :
    sumGroups (groups New stats) = sumCounts (stats.filter (kept New)) := by
  obtain ⟨hpos, hfit⟩ := receivable_kept New stats hrecv
  apply (groups_conserve_total New stats).2
  intro g _
  have h0 := sumCounts_rowsAt_nonneg New (groupKey g.day g.browser g.version) stats hpos
  have h1 := sumCounts_rowsAt_le New (groupKey g.day g.browser g.version) stats hpos
  unfold inInt64
  constructor <;> omega

/-- C19, at an Android row (count 7) between two Chrome rows (counts 3 and
2): the one group has the count 5, the total of the two kept rows. -/
theorem groups_total_conserved_witness :
    Receivable androidRows ∧
    sumGroups (groups androidParser androidRows) = 5 ∧
    sumCounts (androidRows.filter (kept androidParser)) = 5 :=
  ⟨by decide,
    (groups_total_conserved androidParser androidRows (by decide)).trans (by decide),
    by decide⟩

/-! ## The key string of line 95 -/

/-- C1, evaluated: two raw rows of one day that classify to the families
"My Bot" (version "1.0", count 3) and "My" (version "Bot 1.0", count 2) are
rows the query can return; the loop produces the single group (2020-01-05,
My Bot, 1.0) with the count 5, while the raw rows of that (day, family,
version) have the counts [3] and the two hits of (2020-01-05, My, Bot 1.0)
have no group of their own. -/
theorem group_count_key_clash :
    Receivable clashRows ∧
    groups clashParser clashRows =
      [{ count := 5, mobile := false, day := "2020-01-05", browser := "My Bot",
         version := "1.0" }] ∧
    (rowsOf clashParser clashRows ("2020-01-05", "My Bot", "1.0")).map bstat.Count = [3] ∧
    (rowsOf clashParser clashRows ("2020-01-05", "My", "Bot 1.0")).map bstat.Count = [2] := by
  decide

/-- C2, evaluated: the two rows of `clashRows` are both kept and differ in
family and version, yet line 95 gives them the same key string
"2020-01-05My Bot 1.0": they are accumulated into one map entry and the
output has 1 group for the 2 distinct (day, family, version). -/
theorem groups_key_clash :
    clashRows.map (kept clashParser) = [true, true] ∧
    clashRows.map (rowTriple clashParser) =
      [("2020-01-05", "My Bot", "1.0"), ("2020-01-05", "My", "Bot 1.0")] ∧
    clashRows.map (rowKey clashParser) = ["2020-01-05My Bot 1.0", "2020-01-05My Bot 1.0"] ∧
    (groups clashParser clashRows).length = 1 ∧
    (((clashRows.filter (kept clashParser)).map (rowTriple clashParser)).dedup).length = 2 := by
  decide

end Cron
